import Mathlib

/-!
# Progeny: a shallow embedding of the block-program engine

This file embeds the core of the Progeny genetic-programming engine
(`src/client/functions/program.ts` and
`src/client/functions/genetic-algorithm.ts`, first variant of each file)
into Lean 4 and proves properties of the embedded code.

Modelling conventions:
* JavaScript numbers are modelled as `ℚ` (exact rationals); IEEE-754
  rounding, `NaN` and `Infinity` are outside the model.
* JavaScript exceptions (`throw new Error(...)`) are modelled with
  `Except String`.
* The mutable `state` object threaded through the interpreter is passed
  and returned explicitly.
* The write-only logging side channel (`log`/`warn`/`error`) is not
  modelled; only the values computed by the code are.
* `program.ts` computes its block catalogue `blockDefs` by flattening
  `blocksModule.categories` (lines 29–37).  The default export of
  `src/client/files/blocks.ts` is a flat object with no `categories`
  property, so that flattening loop produces an empty table; `blockDefs`
  below is therefore the empty lookup.  All code paths that consult the
  catalogue are still translated faithfully.
-/

namespace Progeny

/-- A JavaScript runtime value as it flows through `resolveInput`:
`number`, `boolean` or `string`. -/
inductive JsVal where
  | num (q : ℚ)
  | bool (b : Bool)
  | str (s : String)
  deriving DecidableEq, Repr

mutual
/-- A `Value` occupying an input slot of a block: numeric literal,
boolean literal, string (variable name or operator token), or a nested
block (`src/client/files/blocks.ts`, type `Block`, fields
`inputs?: (string | number | boolean | Block)[]`). -/
inductive Value where
  | num (q : ℚ)
  | bool (b : Bool)
  | str (s : String)
  | blk (b : Block)

/-- A block node (`src/client/files/blocks.ts`, type `Block`): a
`blockName` tag plus the optional fields the program logic uses
(`inputs`, `var`, `value`, `condition`, `actions`, `elseActions`).
A missing `inputs` array is modelled as `[]`. -/
inductive Block where
  | mk (blockName : String) (inputs : List Value) (varName : Option String)
      (value : Option Value) (condition : Option Value)
      (actions : List Block) (elseActions : List Block)
end

/-- `block.blockName`. -/
def Block.blockName : Block → String
  | .mk n _ _ _ _ _ _ => n

/-- `block.inputs` (missing array modelled as `[]`). -/
def Block.inputs : Block → List Value
  | .mk _ i _ _ _ _ _ => i

/-- `block.var`. -/
def Block.varName : Block → Option String
  | .mk _ _ v _ _ _ _ => v

/-- `block.value`. -/
def Block.value : Block → Option Value
  | .mk _ _ _ v _ _ _ => v

/-- `block.condition`. -/
def Block.condition : Block → Option Value
  | .mk _ _ _ _ c _ _ => c

/-- `block.actions`. -/
def Block.actions : Block → List Block
  | .mk _ _ _ _ _ a _ => a

/-- `block.elseActions`. -/
def Block.elseActions : Block → List Block
  | .mk _ _ _ _ _ _ e => e

/-- The fixed list of well-known variable names
(`program.ts` line 40: `const variables = ['out', 'v0', 'v1', 'v2']`). -/
def variablesList : List String := ["out", "v0", "v1", "v2"]

/-- The constant pool (`program.ts` line 41). -/
def constants : List ℚ := [-10, -5, -1, 0, 1, 2, 5, 10, 1/10, 1/2, 1, 2]

/-- The comparison operator tokens (`program.ts` line 43). -/
def operators : List String := ["==", "!=", ">", ">=", "<", "<="]

/-- The interpreter state (`program.ts`, interface `State`): the
variable environment plus the dedicated `output` slot.  The JavaScript
object `vars` is modelled as an association list where an assignment
conses a new binding and `lookup` returns the most recent one. -/
structure State where
  vars : List (String × JsVal)
  output : ℚ
  deriving DecidableEq, Repr

/-- A catalogue entry (`program.ts`, interface `BlockDefinition`);
`action` takes the resolved inputs and the state, returning an optional
result (void modelled as `none`) and the possibly updated state. -/
structure BlockDefinition where
  inputs : Option (List String)
  output : Option String
  action : Option (List JsVal → State → (Option JsVal × State))

/-- The flattened block catalogue (`program.ts` lines 29–37):
the code iterates `(blocksModule as any).categories || []`, but the
default export of `src/client/files/blocks.ts` has no `categories`
property, so the resulting lookup table is empty. -/
def blockDefs : String → Option BlockDefinition := fun _ => none

/-- `s.startsWith(c)` for a single-character prefix, expressed on the
character list so that it evaluates by reduction. -/
def startsWithChar (s : String) (c : Char) : Bool := s.data.head? = some c

/-- `s.trim() === ''` — true exactly when `s` is all whitespace. -/
def trimIsEmpty (s : String) : Bool := s.data.all fun c => c.isWhitespace

/-- The dynamic-variable-name pattern `/^(out|v[0-9]+|b[0-9]+)$/`
(`program.ts` line 72). -/
def dynamicVarPattern (s : String) : Bool :=
  s = "out" ||
    (match s.data with
      | c :: rest => (c = 'v' || c = 'b') && !rest.isEmpty && rest.all Char.isDigit
      | [] => false)

/-- `isValidProgramVariableName` (`program.ts` lines 64–74): non-empty
after trimming, and either a well-known/input variable or matching the
dynamic pattern.  The `typeof varName !== 'string'` guard is handled at
the call sites (a non-string never reaches this function in the model). -/
def isValidProgramVariableName (varName : String) (localInputVariables : List String) : Bool :=
  if trimIsEmpty varName then false
  else if varName ∈ variablesList || varName ∈ localInputVariables then true
  else dynamicVarPattern varName

/-- The slot type of a comparison operator token
(`"'=='|'!='|'>'|'>='|'<'|'<='"` in the source). -/
def operatorType : String := "opToken"

mutual

/-- `isValidValue` (`program.ts` lines 161–225) on a present (non-null)
value.  Returns `.ok` of the boolean result; exceptions thrown by the
nested `isValidBlock` call propagate. -/
def isValidValue (value : Value) (expectedType : String)
    (inputVariables : List String) : Except String Bool :=
  if expectedType = "number" then
    match value with
    | .num _ => .ok true
    | .str s => .ok (s ∈ variablesList || s ∈ inputVariables)
    | .blk b =>
      if b.blockName ≠ "" then do
        let valid ← isValidBlock b inputVariables
        if valid then
          if (blockDefs b.blockName).bind (·.output) = some "Number" then .ok true
          else if b.blockName = "get" then
            match b.inputs.head? with
            | some (.str varName) =>
              .ok (isValidProgramVariableName varName inputVariables &&
                    !startsWithChar varName 'b')
            | _ => .ok false
          else .ok false
        else .ok false
      else .ok false
    | .bool _ => .ok false
  else if expectedType = "boolean" then
    match value with
    | .bool _ => .ok true
    | .str s => .ok (isValidProgramVariableName s inputVariables)
    | .blk b =>
      if b.blockName ≠ "" then do
        let valid ← isValidBlock b inputVariables
        if valid then
          if (blockDefs b.blockName).bind (·.output) = some "Boolean" then .ok true
          else if b.blockName = "get" then
            match b.inputs.head? with
            | some (.str varName) =>
              .ok (isValidProgramVariableName varName inputVariables &&
                    startsWithChar varName 'b')
            | _ => .ok false
          else .ok false
        else .ok false
      else .ok false
    | .num _ => .ok false
  else if expectedType = "variable" then
    match value with
    | .str s => .ok (isValidProgramVariableName s inputVariables)
    | _ => .ok false
  else if expectedType = operatorType then
    match value with
    | .str s => .ok (s ∈ operators)
    | _ => .ok false
  else .ok false
termination_by structural value

/-- `isValidValue` on a possibly absent value: `null`/`undefined` is
invalid (`program.ts` line 167). -/
def isValidValueOpt (value : Option Value) (expectedType : String)
    (inputVariables : List String) : Except String Bool :=
  match value with
  | none => .ok false
  | some v => isValidValue v expectedType inputVariables
termination_by structural value

/-- `isValidBlock` (`program.ts` lines 227–346).  Note that this
function never returns `false`: every invalid shape raises a
`Validation Error` exception (modelled as `.error`); on success it
returns `.ok true`. -/
def isValidBlock (b : Block) (inputVariables : List String) : Except String Bool :=
  match b with
  | .mk name inputs varN val cond actions elseActions =>
    if name = "" then
      .error "Validation Error: Block is missing a name or is not an object"
    else if name = "set" then
      let varName := varN.getD ""
      if !isValidProgramVariableName varName inputVariables then
        .error "Validation Error: set block has invalid or missing var property"
      else do
        let ok ← isValidValueOpt val
          (if startsWithChar varName 'b' then "boolean" else "number") inputVariables
        if !ok then .error "Validation Error: set block has invalid value"
        else .ok true
    else if name = "return" then
      match inputs with
      | [inputVal] => do
        let ok ← isValidValue inputVal "number" inputVariables
        if !ok then .error "Validation Error: return block input is not a valid number"
        else .ok true
      | _ => .error "Validation Error: return block must have exactly one input"
    else if name = "if" || name = "ifElse" then do
      let okCond ← isValidValueOpt cond "boolean" inputVariables
      if !okCond then .error "Validation Error: if/ifElse has invalid condition"
      else do
        let okActs ← allValidBlocks actions inputVariables
        if !okActs then .error "Validation Error: if/ifElse has invalid actions"
        else if name = "ifElse" then do
          let okElse ← allValidBlocks elseActions inputVariables
          if !okElse then .error "Validation Error: ifElse has invalid elseActions"
          else .ok true
        else .ok true
    else
      match blockDefs name with
      | none => .error "Validation Error: Unknown blockName"
      | some blockDef =>
        match blockDef.inputs with
        | some sig =>
          if inputs.length ≠ sig.length then
            .error "Validation Error: Incorrect inputs array"
          else validateInputs inputs sig inputVariables
        | none =>
          if inputs.length > 0 then
            .error "Validation Error: block does not expect inputs"
          else .ok true
termination_by structural b

/-- `block.actions.every(a => isValidBlock(a, ...))`: short-circuits on
the first `false` (unreachable, as `isValidBlock` throws instead). -/
def allValidBlocks (bs : List Block) (inputVariables : List String) :
    Except String Bool :=
  match bs with
  | [] => .ok true
  | b :: rest => do
    let ok ← isValidBlock b inputVariables
    if ok then allValidBlocks rest inputVariables else .ok false
termination_by structural bs

/-- The per-slot validation loop of `isValidBlock`'s generic branch
(`program.ts` lines 325–338): throws on the first invalid input. -/
def validateInputs (vs : List Value) (sig : List String)
    (inputVariables : List String) : Except String Bool :=
  match vs, sig with
  | v :: vrest, t :: trest => do
    let ok ← isValidValue v t inputVariables
    if !ok then .error "Validation Error: input for block is invalid"
    else validateInputs vrest trest inputVariables
  | _, _ => .ok true
termination_by structural vs

end

/-- The type-appropriate default of `resolveInput`
(`expectedType === 'boolean' ? false : 0`). -/
def defaultFor (expectedType : String) : JsVal :=
  if expectedType = "boolean" then .bool false else .num 0

/-- JavaScript truthiness of a runtime value (used by `if (condition)`):
`0`, `false` and `''` are falsy. -/
def JsVal.truthy : JsVal → Bool
  | .num q => q ≠ 0
  | .bool b => b
  | .str s => s ≠ ""

mutual

/-- `ProgenyProgram.resolveInput` (`program.ts` lines 646–764) on a
present input.  Returns the resolved runtime value and the state (which
can only change through a nested `executeBlock` call). -/
def resolveInput (input : Value) (runTimeInputs : List (String × JsVal))
    (s : State) (expectedType : String) (inputVariables : List String) :
    Except String (JsVal × State) :=
  match input with
  | .num q =>
    if expectedType = "number" then .ok (.num q, s)
    else .ok (defaultFor expectedType, s)
  | .bool b =>
    if expectedType = "boolean" then .ok (.bool b, s)
    else .ok (defaultFor expectedType, s)
  | .str st =>
    if expectedType = "variable" then
      .ok (.str (if st ∈ variablesList || st ∈ inputVariables then st else "out"), s)
    else if expectedType = "number" || expectedType = "boolean" then
      match s.vars.lookup st with
      | none => .ok (defaultFor expectedType, s)
      | some v =>
        if (expectedType = "number" && (match v with | .num _ => true | _ => false)) ||
            (expectedType = "boolean" && (match v with | .bool _ => true | _ => false)) then
          .ok (v, s)
        else .ok (defaultFor expectedType, s)
    else if expectedType = operatorType then
      .ok (.str (if st ∈ operators then st else "=="), s)
    else .ok (defaultFor expectedType, s)
  | .blk b => do
    let valid ← isValidBlock b inputVariables
    if valid then
      let bd := blockDefs b.blockName
      if bd.bind (·.output) = some "number" && expectedType = "number" then do
        let (result, s') ← executeBlock b runTimeInputs s inputVariables
        match result with
        | some (.num q) => .ok (.num q, s')
        | some (.bool bb) => .ok (.bool bb, s')
        | _ => .ok (.num 0, s')
      else if bd.bind (·.output) = some "boolean" && expectedType = "boolean" then do
        let (result, s') ← executeBlock b runTimeInputs s inputVariables
        match result with
        | some (.num q) => .ok (.num q, s')
        | some (.bool bb) => .ok (.bool bb, s')
        | _ => .ok (.num 0, s')
      else if b.blockName = "get" && expectedType = "number" then
        match b.inputs.head? with
        | some (.str key) =>
          if key ≠ "" && (key ∈ variablesList || key ∈ inputVariables) then
            match s.vars.lookup key with
            | some (.num q) => .ok (.num q, s)
            | _ => .ok (.num 0, s)
          else .ok (.num 0, s)
        | _ => .ok (.num 0, s)
      else if b.blockName = "get" && expectedType = "boolean" then
        match b.inputs.head? with
        | some (.str key) =>
          if key ≠ "" && (key ∈ variablesList || key ∈ inputVariables) then
            match s.vars.lookup key with
            | some (.bool bb) => .ok (.bool bb, s)
            | _ => .ok (.bool false, s)
          else .ok (.bool false, s)
        | _ => .ok (.bool false, s)
      else .ok (defaultFor expectedType, s)
    else .ok (defaultFor expectedType, s)
termination_by structural input

/-- `resolveInput` on a possibly absent input: `null`/`undefined`
resolves to the type-appropriate default with a warning
(`program.ts` lines 652–655). -/
def resolveInputOpt (input : Option Value) (runTimeInputs : List (String × JsVal))
    (s : State) (expectedType : String) (inputVariables : List String) :
    Except String (JsVal × State) :=
  match input with
  | none => .ok (defaultFor expectedType, s)
  | some v => resolveInput v runTimeInputs s expectedType inputVariables
termination_by structural input

/-- The `Promise.all(block.inputs.map((input, i) => resolveInput(...)))`
loop of `executeBlock` (`program.ts` lines 871–883), with the expected
type of slot `i` taken from the signature (or `''` when missing).  The
parallel `Promise.all` is modelled as a left-to-right sequence; with the
empty catalogue `resolveInput` never changes the state, so the order is
immaterial. -/
def resolveInputsList (vs : List Value) (sig : List String)
    (runTimeInputs : List (String × JsVal)) (s : State)
    (inputVariables : List String) : Except String (List JsVal × State) :=
  match vs with
  | [] => .ok ([], s)
  | v :: rest => do
    let (r, s') ← resolveInput v runTimeInputs s (sig.head?.getD "") inputVariables
    let (rs, s'') ← resolveInputsList rest sig.tail runTimeInputs s' inputVariables
    .ok (r :: rs, s'')
termination_by structural vs

/-- `ProgenyProgram.executeBlock` (`program.ts` lines 766–902).
Returns the block's result (`none` models a `void` return) and the
updated state. -/
def executeBlock (b : Block) (runTimeInputs : List (String × JsVal))
    (s : State) (inputVariables : List String) :
    Except String (Option JsVal × State) :=
  match b with
  | .mk name inputs varN val cond actions elseActions => do
    let valid ← isValidBlock (.mk name inputs varN val cond actions elseActions)
      inputVariables
    if !valid then .ok (some (.num 0), s)
    else if name = "set" then
      match varN with
      | some v => do
        let varType := if startsWithChar v 'b' then "boolean" else "number"
        let (resolved, s') ← resolveInputOpt val runTimeInputs s varType inputVariables
        match resolved with
        | .num _ => .ok (none, { s' with vars := (v, resolved) :: s'.vars })
        | .bool _ => .ok (none, { s' with vars := (v, resolved) :: s'.vars })
        | _ => .ok (none, s')
      | none => .ok (none, s)
    else if name = "return" then
      match inputs with
      | inputVal :: _ => do
        let (valueToReturn, s') ← resolveInput inputVal runTimeInputs s "number"
          inputVariables
        match valueToReturn with
        | .num q => .ok (none, { s' with output := q })
        | _ => .ok (none, s')
      | [] => .ok (none, s)
    else if name = "if" then do
      let (condition, s') ← resolveInputOpt cond runTimeInputs s "boolean" inputVariables
      if condition.truthy then do
        let s'' ← executeActionList actions runTimeInputs s' inputVariables
        .ok (none, s'')
      else .ok (none, s')
    else if name = "ifElse" then do
      let (condition, s') ← resolveInputOpt cond runTimeInputs s "boolean" inputVariables
      let s'' ←
        if condition.truthy then
          executeActionList actions runTimeInputs s' inputVariables
        else
          executeActionList elseActions runTimeInputs s' inputVariables
      .ok (none, s'')
    else
      match blockDefs name with
      | none => .ok (none, s)
      | some blockDef =>
        if blockDef.output = none then
          match blockDef.action with
          | some f => do
            let (resolved, s') ← resolveInputsList inputs (blockDef.inputs.getD [])
              runTimeInputs s inputVariables
            let (_, s'') := f resolved s'
            .ok (none, s'')
          | none => .ok (none, s)
        else do
          let (resolvedInputs, s') ←
            match blockDef.inputs with
            | some sig => resolveInputsList inputs sig runTimeInputs s inputVariables
            | none => .ok ([], s)
          match blockDef.action with
          | some f =>
            let (r, s'') := f resolvedInputs s'
            .ok (r, s'')
          | none =>
            if resolvedInputs.length > 0 then
              .ok (some (if blockDef.output = some "boolean" then .bool false else .num 0), s')
            else .ok (none, s')
termination_by structural b

/-- The `for (const action of ...) await this.executeBlock(action, ...)`
loops of the `if`/`ifElse` branches (`program.ts` lines 820–839). -/
def executeActionList (bs : List Block) (runTimeInputs : List (String × JsVal))
    (s : State) (inputVariables : List String) : Except String State :=
  match bs with
  | [] => .ok s
  | a :: rest => do
    let (_, s') ← executeBlock a runTimeInputs s inputVariables
    executeActionList rest runTimeInputs s' inputVariables
termination_by structural bs

end

/-- The `for (const block of this.blocks)` loop of `ProgenyProgram.run`
(`program.ts` lines 931–935): validate each top-level block (which
throws on an invalid one), then execute it. -/
def runBlocks (blocks : List Block) (runTimeInputs : List (String × JsVal))
    (s : State) (inputVariables : List String) : Except String State :=
  match blocks with
  | [] => .ok s
  | b :: rest => do
    let valid ← isValidBlock b inputVariables
    let s' ←
      if valid then do
        let (_, s') ← executeBlock b runTimeInputs s inputVariables
        pure s'
      else pure s
    runBlocks rest runTimeInputs s' inputVariables

/-- A `ProgenyProgram`: the block list and the input-variable names it
was built against (`consoleLog` only controls logging and is not
modelled). -/
structure Program where
  blocks : List Block
  inputVariables : List String

/-- The environment seeding of `ProgenyProgram.run`
(`program.ts` lines 907–924): `out`, `v0`, `v1`, `v2` start at `0`,
then each input variable is bound to its runtime value, defaulting to
`0` (with a warning) when absent. -/
def seedVars (inputVariables : List String)
    (runTimeInputs : List (String × JsVal)) : List (String × JsVal) :=
  inputVariables.foldl
    (fun env name => (name, (runTimeInputs.lookup name).getD (.num 0)) :: env)
    [("out", .num 0), ("v0", .num 0), ("v1", .num 0), ("v2", .num 0)]

/-- `ProgenyProgram.run` (`program.ts` lines 904–937): seed the
environment, execute every top-level block in sequence, and return the
state's `output` slot. -/
def run (p : Program) (runTimeInputs : List (String × JsVal)) : Except String ℚ := do
  let s0 : State := { vars := seedVars p.inputVariables runTimeInputs, output := 0 }
  let sF ← runBlocks p.blocks runTimeInputs s0 p.inputVariables
  .ok sF.output

/-- The canonical return block `{ blockName: 'return', inputs: ['out'] }`. -/
def returnOutBlock : Block := .mk "return" [.str "out"] none none none [] []

/-- The first constructor fallback value
(`this.inputVariables.length > 0 ? this.inputVariables[0] : constants[0]`,
`program.ts` lines 569–572). -/
def fallbackSetValue (inputVariables : List String) : Value :=
  match inputVariables with
  | v :: _ => .str v
  | [] => .num constants.headI

/-- The constructor's fallback program
`[{set out (inputVariables[0] or constants[0])}, {return out}]`
(`program.ts` lines 565–575). -/
def fallbackBlocks (inputVariables : List String) : List Block :=
  [.mk "set" [] (some "out") (some (fallbackSetValue inputVariables)) none [] [],
    returnOutBlock]

/-- `initialBlocks.filter((block) => isValidBlock(block, ...))`
(`program.ts` lines 545–558): the JavaScript predicate throws on an
invalid block, aborting the whole `filter`; when it completes, every
block was reported valid.  (`isValidBlock` never returns `false`, so no
block is ever actually dropped.) -/
def filterValidBlocks (blocks : List Block) (inputVariables : List String) :
    Except String (List Block) :=
  match blocks with
  | [] => .ok []
  | b :: rest => do
    let ok ← isValidBlock b inputVariables
    let rest' ← filterValidBlocks rest inputVariables
    .ok (if ok then b :: rest' else rest')

/-- The `ProgenyProgram` constructor (`program.ts` lines 535–613):
filter the supplied blocks through the (throwing) validator, fall back
to a trivial program when none remain, append a canonical `return`
block when none is present, and re-validate (with the ultimate
`[set out constants[0]; return out]` fallback). -/
def progenyProgram (initialBlocks : List Block) (inputVariables : List String) :
    Except String Program := do
  let processed ←
    if initialBlocks.length > 0 then filterValidBlocks initialBlocks inputVariables
    else pure ([] : List Block)
  let processed := if processed.length = 0 then fallbackBlocks inputVariables else processed
  let blocks := if processed.length = 0 then fallbackBlocks inputVariables else processed
  let blocks :=
    if blocks.all (fun b => b.blockName ≠ "return") then blocks ++ [returnOutBlock]
    else blocks
  let everyValid ← allValidBlocks blocks inputVariables
  let blocks :=
    if !everyValid then
      [.mk "set" [] (some "out") (some (.num constants.headI)) none [] [],
        returnOutBlock]
    else blocks
  .ok { blocks := blocks, inputVariables := inputVariables }

mutual

/-- `JSON.parse(JSON.stringify(...))` on a value: a structural copy. -/
def deepCopyValue : Value → Value
  | .num q => .num q
  | .bool b => .bool b
  | .str s => .str s
  | .blk b => .blk (deepCopyBlock b)

/-- `JSON.parse(JSON.stringify(...))` on an optional field. -/
def deepCopyOptValue : Option Value → Option Value
  | none => none
  | some v => some (deepCopyValue v)

/-- `JSON.parse(JSON.stringify(...))` on a block: a structural copy. -/
def deepCopyBlock : Block → Block
  | .mk n i v val c a e =>
    .mk n (deepCopyValueList i) v (deepCopyOptValue val) (deepCopyOptValue c)
      (deepCopyBlockList a) (deepCopyBlockList e)

/-- Structural copy of an input list. -/
def deepCopyValueList : List Value → List Value
  | [] => []
  | v :: rest => deepCopyValue v :: deepCopyValueList rest

/-- Structural copy of a block list. -/
def deepCopyBlockList : List Block → List Block
  | [] => []
  | b :: rest => deepCopyBlock b :: deepCopyBlockList rest

end

/-- `ProgenyProgram.create` with no initial blocks
(`program.ts` lines 615–644): synthesize
`[{set out defaultValue}, {return out}]` and run it through the
constructor.  The randomly generated `defaultValue` (from
`generateInitialValue`) is passed in explicitly. -/
def create (inputVariables : List String) (generatedValue : Value) :
    Except String Program :=
  progenyProgram
    [.mk "set" [] (some "out") (some generatedValue) none [] [], returnOutBlock]
    inputVariables

/-- The crossover block-count cap (`genetic-algorithm.ts` line 143:
`const MAX_BLOCKS = 50`). -/
def MAX_BLOCKS : ℕ := 50

/-- `Progeny.crossover` (`genetic-algorithm.ts` lines 105–157).  The two
random cut points `cp1 ∈ [0, len p1]`, `cp2 ∈ [0, len p2]` and the
random initial value used by the both-parents-empty branch are passed
in explicitly. -/
def crossover (program1 program2 : Program) (cp1 cp2 : ℕ)
    (generatedValue : Value) : Except String Program :=
  let p1_blocks := program1.blocks
  let p2_blocks := program2.blocks
  let inputVariables := program1.inputVariables
  if p1_blocks.length = 0 && p2_blocks.length = 0 then
    create inputVariables generatedValue
  else if p1_blocks.length = 0 then
    progenyProgram (deepCopyBlockList p2_blocks) inputVariables
  else if p2_blocks.length = 0 then
    progenyProgram (deepCopyBlockList p1_blocks) inputVariables
  else
    let segment1 := deepCopyBlockList (p1_blocks.take cp1)
    let segment2 := deepCopyBlockList (p2_blocks.drop cp2)
    let raw_child_blocks := segment1 ++ segment2
    let non_return_blocks := raw_child_blocks.filter fun b => b.blockName ≠ "return"
    let non_return_blocks :=
      if non_return_blocks.length > MAX_BLOCKS then non_return_blocks.take MAX_BLOCKS
      else non_return_blocks
    let final_child_blocks := non_return_blocks ++ [returnOutBlock]
    progenyProgram final_child_blocks inputVariables

/-- The observable effect of one `crossover` call on the three programs
involved: the child it returns, and the two parent objects as they
stand when the call returns.  The translation of
`genetic-algorithm.ts` lines 105–157 contains no assignment to either
parent (`p1_blocks`/`p2_blocks` are only read, and the spliced segments
are deep-copied before use), so the after-call parents are the
unchanged inputs. -/
def crossoverTrace (program1 program2 : Program) (cp1 cp2 : ℕ)
    (generatedValue : Value) : Except String Program × Program × Program :=
  (crossover program1 program2 cp1 cp2 generatedValue, program1, program2)

/-- A fitness test case: the `{inputs, expected}` pairs produced by
`testCase.generateCases` (`genetic-algorithm.ts` line 55). -/
structure Case where
  inputs : List (String × JsVal)
  expected : ℚ

/-- The accumulator loop of `Progeny.evaluate`
(`genetic-algorithm.ts` lines 56–62): run the program on each case and
accumulate `errorSum += Math.abs(result - expected)`.  The
`typeof result !== 'number'` short-circuit (line 58, returning fitness
`0`) has no corresponding branch in the model because `run` always
returns a number (`ℚ`) when it returns at all. -/
def evaluateLoop (p : Program) (cases : List Case) (errorSum : ℚ) :
    Except String ℚ :=
  match cases with
  | [] => .ok (1 / (1 + errorSum))
  | c :: rest => do
    let result ← run p c.inputs
    evaluateLoop p rest (errorSum + |result - c.expected|)

/-- `Progeny.evaluate` (`genetic-algorithm.ts` lines 53–65) on a fixed
list of generated cases: fitness `= 1 / (1 + Σ |result - expected|)`. -/
def evaluate (p : Program) (cases : List Case) : Except String ℚ :=
  evaluateLoop p cases 0

/-- The total absolute error `Σ |result - expected|` of a program on a
case list (the value `errorSum` holds after the loop of
`Progeny.evaluate`). -/
def totalError (p : Program) (cases : List Case) : Except String ℚ :=
  cases.foldlM (fun acc c => do
    let r ← run p c.inputs
    pure (acc + |r - c.expected|)) 0

/-! ## Helper lemmas -/


/-- `true` exactly on numeric runtime values. -/
def JsVal.isNum : JsVal → Bool
  | .num _ => true
  | _ => false

/-- `true` exactly on boolean runtime values. -/
def JsVal.isBool : JsVal → Bool
  | .bool _ => true
  | _ => false

/-- The value a nested-block resolution produces from an `executeBlock`
result (`program.ts` lines 695–699: a numeric or boolean result is
passed through, anything else becomes `0`). -/
def execResolveResult (r : Option JsVal) : JsVal :=
  match r with
  | some (.num q) => .num q
  | some (.bool b) => .bool b
  | _ => .num 0

/-- The result of the `get`-with-expected-`number` branch of
`resolveInput` (`program.ts` lines 708–732). -/
def getNumResult (b : Block) (s : State) (ivs : List String) : JsVal :=
  match b.inputs.head? with
  | some (.str key) =>
    if key ≠ "" && (key ∈ variablesList || key ∈ ivs) then
      match s.vars.lookup key with
      | some (.num q) => .num q
      | _ => .num 0
    else .num 0
  | _ => .num 0

/-- The result of the `get`-with-expected-`boolean` branch of
`resolveInput` (`program.ts` lines 733–757). -/
def getBoolResult (b : Block) (s : State) (ivs : List String) : JsVal :=
  match b.inputs.head? with
  | some (.str key) =>
    if key ≠ "" && (key ∈ variablesList || key ∈ ivs) then
      match s.vars.lookup key with
      | some (.bool bb) => .bool bb
      | _ => .bool false
    else .bool false
  | _ => .bool false

/-- A query to the interpreter: one of its mutually recursive entry
points together with its arguments. -/
inductive EvalIn where
  | resolve (input : Value) (rti : List (String × JsVal)) (s : State)
      (t : String) (ivs : List String)
  | resolveOpt (input : Option Value) (rti : List (String × JsVal)) (s : State)
      (t : String) (ivs : List String)
  | resolveList (vs : List Value) (sig : List String)
      (rti : List (String × JsVal)) (s : State) (ivs : List String)
  | exec (b : Block) (rti : List (String × JsVal)) (s : State) (ivs : List String)
  | execList (bs : List Block) (rti : List (String × JsVal)) (s : State)
      (ivs : List String)
  | runList (bs : List Block) (rti : List (String × JsVal)) (s : State)
      (ivs : List String)

/-- The answer to an interpreter query. -/
inductive EvalOut where
  | val (v : JsVal) (s : State)
  | vals (vs : List JsVal) (s : State)
  | res (r : Option JsVal) (s : State)
  | st (s : State)

/-- The functional interpreter, dispatched over queries. -/
def evalFn : EvalIn → Except String EvalOut
  | .resolve v rti s t ivs =>
    (resolveInput v rti s t ivs).map fun p => .val p.1 p.2
  | .resolveOpt v rti s t ivs =>
    (resolveInputOpt v rti s t ivs).map fun p => .val p.1 p.2
  | .resolveList vs sig rti s ivs =>
    (resolveInputsList vs sig rti s ivs).map fun p => .vals p.1 p.2
  | .exec b rti s ivs =>
    (executeBlock b rti s ivs).map fun p => .res p.1 p.2
  | .execList bs rti s ivs => (executeActionList bs rti s ivs).map .st
  | .runList bs rti s ivs => (runBlocks bs rti s ivs).map .st

/-- Big-step evaluation relation of the interpreter, with one rule per
branch of `resolveInput`/`resolveInputOpt`/`resolveInputsList`/
`executeBlock`/`executeActionList` and of `ProgenyProgram.run`'s block
loop (`program.ts` lines 646–937).  Only successful (non-throwing)
executions are derivable. -/
inductive EvalRel : EvalIn → EvalOut → Prop where
  | numOk (q : ℚ) (rti : List (String × JsVal)) (s : State) (ivs : List String) :
      EvalRel (.resolve (.num q) rti s "number" ivs) (.val (.num q) s)
  | numDefault (q : ℚ) (rti : List (String × JsVal)) (s : State) (t : String)
      (ivs : List String) (ht : t ≠ "number") :
      EvalRel (.resolve (.num q) rti s t ivs) (.val (defaultFor t) s)
  | boolOk (b : Bool) (rti : List (String × JsVal)) (s : State) (ivs : List String) :
      EvalRel (.resolve (.bool b) rti s "boolean" ivs) (.val (.bool b) s)
  | boolDefault (b : Bool) (rti : List (String × JsVal)) (s : State) (t : String)
      (ivs : List String) (ht : t ≠ "boolean") :
      EvalRel (.resolve (.bool b) rti s t ivs) (.val (defaultFor t) s)
  | strVariable (st : String) (rti : List (String × JsVal)) (s : State)
      (ivs : List String) :
      EvalRel (.resolve (.str st) rti s "variable" ivs)
        (.val (.str (if st ∈ variablesList || st ∈ ivs then st else "out")) s)
  | strUndefined (st : String) (rti : List (String × JsVal)) (s : State)
      (t : String) (ivs : List String) (ht : t ≠ "variable")
      (htn : t = "number" ∨ t = "boolean") (hl : s.vars.lookup st = none) :
      EvalRel (.resolve (.str st) rti s t ivs) (.val (defaultFor t) s)
  | strMatch (st : String) (rti : List (String × JsVal)) (s : State) (t : String)
      (ivs : List String) (v : JsVal) (ht : t ≠ "variable")
      (htn : t = "number" ∨ t = "boolean") (hl : s.vars.lookup st = some v)
      (hm : (t = "number" ∧ v.isNum = true) ∨ (t = "boolean" ∧ v.isBool = true)) :
      EvalRel (.resolve (.str st) rti s t ivs) (.val v s)
  | strMismatch (st : String) (rti : List (String × JsVal)) (s : State) (t : String)
      (ivs : List String) (v : JsVal) (ht : t ≠ "variable")
      (htn : t = "number" ∨ t = "boolean") (hl : s.vars.lookup st = some v)
      (hm : ¬ ((t = "number" ∧ v.isNum = true) ∨ (t = "boolean" ∧ v.isBool = true))) :
      EvalRel (.resolve (.str st) rti s t ivs) (.val (defaultFor t) s)
  | strOperator (st : String) (rti : List (String × JsVal)) (s : State)
      (ivs : List String) (ht1 : operatorType ≠ "variable")
      (ht2 : ¬ (operatorType = "number" ∨ operatorType = "boolean")) :
      EvalRel (.resolve (.str st) rti s operatorType ivs)
        (.val (.str (if st ∈ operators then st else "==")) s)
  | strOther (st : String) (rti : List (String × JsVal)) (s : State) (t : String)
      (ivs : List String) (ht1 : t ≠ "variable")
      (ht2 : ¬ (t = "number" ∨ t = "boolean")) (ht3 : t ≠ operatorType) :
      EvalRel (.resolve (.str st) rti s t ivs) (.val (defaultFor t) s)
  | blkNumber (b : Block) (rti : List (String × JsVal)) (s : State)
      (ivs : List String) (r : Option JsVal) (s' : State)
      (hv : isValidBlock b ivs = .ok true)
      (hbd : (blockDefs b.blockName).bind (·.output) = some "number")
      (hx : EvalRel (.exec b rti s ivs) (.res r s')) :
      EvalRel (.resolve (.blk b) rti s "number" ivs)
        (.val (execResolveResult r) s')
  | blkBoolean (b : Block) (rti : List (String × JsVal)) (s : State)
      (ivs : List String) (r : Option JsVal) (s' : State)
      (hv : isValidBlock b ivs = .ok true)
      (hnb : ¬ ((blockDefs b.blockName).bind (·.output) = some "number" ∧
        "boolean" = "number"))
      (hbd : (blockDefs b.blockName).bind (·.output) = some "boolean")
      (hx : EvalRel (.exec b rti s ivs) (.res r s')) :
      EvalRel (.resolve (.blk b) rti s "boolean" ivs)
        (.val (execResolveResult r) s')
  | blkGetNumber (b : Block) (rti : List (String × JsVal)) (s : State)
      (ivs : List String) (hv : isValidBlock b ivs = .ok true)
      (hnb : ¬ (blockDefs b.blockName).bind (·.output) = some "number")
      (hg : b.blockName = "get") :
      EvalRel (.resolve (.blk b) rti s "number" ivs)
        (.val (getNumResult b s ivs) s)
  | blkGetBoolean (b : Block) (rti : List (String × JsVal)) (s : State)
      (ivs : List String) (hv : isValidBlock b ivs = .ok true)
      (hnb : ¬ (blockDefs b.blockName).bind (·.output) = some "boolean")
      (hg : b.blockName = "get") :
      EvalRel (.resolve (.blk b) rti s "boolean" ivs)
        (.val (getBoolResult b s ivs) s)
  | blkFallthrough (b : Block) (rti : List (String × JsVal)) (s : State)
      (t : String) (ivs : List String) (hv : isValidBlock b ivs = .ok true)
      (h1 : ¬ ((blockDefs b.blockName).bind (·.output) = some "number" ∧ t = "number"))
      (h2 : ¬ ((blockDefs b.blockName).bind (·.output) = some "boolean" ∧ t = "boolean"))
      (h3 : ¬ (b.blockName = "get" ∧ t = "number"))
      (h4 : ¬ (b.blockName = "get" ∧ t = "boolean")) :
      EvalRel (.resolve (.blk b) rti s t ivs) (.val (defaultFor t) s)
  | blkInvalid (b : Block) (rti : List (String × JsVal)) (s : State) (t : String)
      (ivs : List String) (hv : isValidBlock b ivs = .ok false) :
      EvalRel (.resolve (.blk b) rti s t ivs) (.val (defaultFor t) s)
  | optNone (rti : List (String × JsVal)) (s : State) (t : String)
      (ivs : List String) :
      EvalRel (.resolveOpt none rti s t ivs) (.val (defaultFor t) s)
  | optSome (v : Value) (rti : List (String × JsVal)) (s : State) (t : String)
      (ivs : List String) (x : JsVal) (s' : State)
      (hx : EvalRel (.resolve v rti s t ivs) (.val x s')) :
      EvalRel (.resolveOpt (some v) rti s t ivs) (.val x s')
  | listNil (sig : List String) (rti : List (String × JsVal)) (s : State)
      (ivs : List String) :
      EvalRel (.resolveList [] sig rti s ivs) (.vals [] s)
  | listCons (v : Value) (rest : List Value) (sig : List String)
      (rti : List (String × JsVal)) (s : State) (ivs : List String)
      (r : JsVal) (s' : State) (rs : List JsVal) (s'' : State)
      (h1 : EvalRel (.resolve v rti s (sig.head?.getD "") ivs) (.val r s'))
      (h2 : EvalRel (.resolveList rest sig.tail rti s' ivs) (.vals rs s'')) :
      EvalRel (.resolveList (v :: rest) sig rti s ivs) (.vals (r :: rs) s'')
  | execInvalid (b : Block) (rti : List (String × JsVal)) (s : State)
      (ivs : List String) (hv : isValidBlock b ivs = .ok false) :
      EvalRel (.exec b rti s ivs) (.res (some (.num 0)) s)
  | execSetStore (b : Block) (rti : List (String × JsVal)) (s : State)
      (ivs : List String) (v : String) (resolved : JsVal) (s' : State)
      (hv : isValidBlock b ivs = .ok true) (hn : b.blockName = "set")
      (hvar : b.varName = some v)
      (hr : EvalRel (.resolveOpt b.value rti s
        (if startsWithChar v 'b' then "boolean" else "number") ivs)
        (.val resolved s'))
      (htyped : resolved.isNum = true ∨ resolved.isBool = true) :
      EvalRel (.exec b rti s ivs)
        (.res none { s' with vars := (v, resolved) :: s'.vars })
  | execSetSkip (b : Block) (rti : List (String × JsVal)) (s : State)
      (ivs : List String) (v : String) (st0 : String) (s' : State)
      (hv : isValidBlock b ivs = .ok true) (hn : b.blockName = "set")
      (hvar : b.varName = some v)
      (hr : EvalRel (.resolveOpt b.value rti s
        (if startsWithChar v 'b' then "boolean" else "number") ivs)
        (.val (.str st0) s')) :
      EvalRel (.exec b rti s ivs) (.res none s')
  | execSetNoVar (b : Block) (rti : List (String × JsVal)) (s : State)
      (ivs : List String) (hv : isValidBlock b ivs = .ok true)
      (hn : b.blockName = "set") (hvar : b.varName = none) :
      EvalRel (.exec b rti s ivs) (.res none s)
  | execReturnNum (b : Block) (rti : List (String × JsVal)) (s : State)
      (ivs : List String) (inputVal : Value) (rest : List Value) (q : ℚ) (s' : State)
      (hv : isValidBlock b ivs = .ok true) (hn : b.blockName = "return")
      (hns : b.blockName ≠ "set") (hi : b.inputs = inputVal :: rest)
      (hr : EvalRel (.resolve inputVal rti s "number" ivs) (.val (.num q) s')) :
      EvalRel (.exec b rti s ivs) (.res none { s' with output := q })
  | execReturnOther (b : Block) (rti : List (String × JsVal)) (s : State)
      (ivs : List String) (inputVal : Value) (rest : List Value) (r : JsVal)
      (s' : State) (hv : isValidBlock b ivs = .ok true) (hn : b.blockName = "return")
      (hns : b.blockName ≠ "set") (hi : b.inputs = inputVal :: rest)
      (hr : EvalRel (.resolve inputVal rti s "number" ivs) (.val r s'))
      (hnum : r.isNum = false) :
      EvalRel (.exec b rti s ivs) (.res none s')
  | execReturnEmpty (b : Block) (rti : List (String × JsVal)) (s : State)
      (ivs : List String) (hv : isValidBlock b ivs = .ok true)
      (hn : b.blockName = "return") (hns : b.blockName ≠ "set")
      (hi : b.inputs = []) :
      EvalRel (.exec b rti s ivs) (.res none s)
  | execIfTrue (b : Block) (rti : List (String × JsVal)) (s : State)
      (ivs : List String) (c : JsVal) (s' s'' : State)
      (hv : isValidBlock b ivs = .ok true) (hn : b.blockName = "if")
      (hns : b.blockName ≠ "set") (hnr : b.blockName ≠ "return")
      (hc : EvalRel (.resolveOpt b.condition rti s "boolean" ivs) (.val c s'))
      (htrue : c.truthy = true)
      (ha : EvalRel (.execList b.actions rti s' ivs) (.st s'')) :
      EvalRel (.exec b rti s ivs) (.res none s'')
  | execIfFalse (b : Block) (rti : List (String × JsVal)) (s : State)
      (ivs : List String) (c : JsVal) (s' : State)
      (hv : isValidBlock b ivs = .ok true) (hn : b.blockName = "if")
      (hns : b.blockName ≠ "set") (hnr : b.blockName ≠ "return")
      (hc : EvalRel (.resolveOpt b.condition rti s "boolean" ivs) (.val c s'))
      (hfalse : c.truthy = false) :
      EvalRel (.exec b rti s ivs) (.res none s')
  | execIfElseTrue (b : Block) (rti : List (String × JsVal)) (s : State)
      (ivs : List String) (c : JsVal) (s' s'' : State)
      (hv : isValidBlock b ivs = .ok true) (hn : b.blockName = "ifElse")
      (hns : b.blockName ≠ "set") (hnr : b.blockName ≠ "return")
      (hni : b.blockName ≠ "if")
      (hc : EvalRel (.resolveOpt b.condition rti s "boolean" ivs) (.val c s'))
      (htrue : c.truthy = true)
      (ha : EvalRel (.execList b.actions rti s' ivs) (.st s'')) :
      EvalRel (.exec b rti s ivs) (.res none s'')
  | execIfElseFalse (b : Block) (rti : List (String × JsVal)) (s : State)
      (ivs : List String) (c : JsVal) (s' s'' : State)
      (hv : isValidBlock b ivs = .ok true) (hn : b.blockName = "ifElse")
      (hns : b.blockName ≠ "set") (hnr : b.blockName ≠ "return")
      (hni : b.blockName ≠ "if")
      (hc : EvalRel (.resolveOpt b.condition rti s "boolean" ivs) (.val c s'))
      (hfalse : c.truthy = false)
      (ha : EvalRel (.execList b.elseActions rti s' ivs) (.st s'')) :
      EvalRel (.exec b rti s ivs) (.res none s'')
  | execGenericNoDef (b : Block) (rti : List (String × JsVal)) (s : State)
      (ivs : List String) (hv : isValidBlock b ivs = .ok true)
      (hns : b.blockName ≠ "set") (hnr : b.blockName ≠ "return")
      (hni : b.blockName ≠ "if") (hne : b.blockName ≠ "ifElse")
      (hbd : blockDefs b.blockName = none) :
      EvalRel (.exec b rti s ivs) (.res none s)
  | execListNil (rti : List (String × JsVal)) (s : State) (ivs : List String) :
      EvalRel (.execList [] rti s ivs) (.st s)
  | execListCons (a : Block) (rest : List Block) (rti : List (String × JsVal))
      (s : State) (ivs : List String) (r : Option JsVal) (s' s'' : State)
      (h1 : EvalRel (.exec a rti s ivs) (.res r s'))
      (h2 : EvalRel (.execList rest rti s' ivs) (.st s'')) :
      EvalRel (.execList (a :: rest) rti s ivs) (.st s'')
  | runListNil (rti : List (String × JsVal)) (s : State) (ivs : List String) :
      EvalRel (.runList [] rti s ivs) (.st s)
  | runListConsValid (b : Block) (rest : List Block)
      (rti : List (String × JsVal)) (s : State) (ivs : List String)
      (r : Option JsVal) (s' s'' : State)
      (hv : isValidBlock b ivs = .ok true)
      (h1 : EvalRel (.exec b rti s ivs) (.res r s'))
      (h2 : EvalRel (.runList rest rti s' ivs) (.st s'')) :
      EvalRel (.runList (b :: rest) rti s ivs) (.st s'')
  | runListConsInvalid (b : Block) (rest : List Block)
      (rti : List (String × JsVal)) (s : State) (ivs : List String) (s'' : State)
      (hv : isValidBlock b ivs = .ok false)
      (h2 : EvalRel (.runList rest rti s ivs) (.st s'')) :
      EvalRel (.runList (b :: rest) rti s ivs) (.st s'')

/-- Big-step semantics of `ProgenyProgram.run`: the program's block
list, executed from the seeded environment, ends in a state whose
`output` slot is the returned value. -/
def RunRel (p : Program) (rti : List (String × JsVal)) (out : ℚ) : Prop :=
  ∃ sF, EvalRel (.runList p.blocks rti ⟨seedVars p.inputVariables rti, 0⟩
    p.inputVariables) (.st sF) ∧ out = sF.output

/-- A valid `ProgenyProgram` as the constructor guarantees: a non-empty
block list, every block passing validation, and at least one `return`
block. -/
def ValidProgram (p : Program) : Prop :=
  p.blocks ≠ [] ∧ (∀ b ∈ p.blocks, isValidBlock b p.inputVariables = .ok true) ∧
    ∃ b ∈ p.blocks, b.blockName = "return"

/-- The environment binds `out` to a numeric value. -/
def OutNum (vars : List (String × JsVal)) : Prop :=
  ∃ q, vars.lookup "out" = some (.num q)

/-- The seeded start state for a program with no input variables. -/
def seedState0 : State :=
  ⟨[("out", .num 0), ("v0", .num 0), ("v1", .num 0), ("v2", .num 0)], 0⟩

/-- A return block whose input is the literal `7`. -/
def ret7Block : Block := .mk "return" [.num 7] none none none [] []

/-- A set block storing the literal `5` into `out`. -/
def setOut5Block : Block := .mk "set" [] (some "out") (some (.num 5)) none [] []

/-- The fallback set block `{set out constants[0]}` with `constants[0] = -10`. -/
def setOutNeg10Block : Block := .mk "set" [] (some "out") (some (.num (-10))) none [] []


@[simp] theorem ok_bind {a b : Type} (x : a) (f : a → Except String b) :
    (Except.ok x : Except String a) >>= f = f x := rfl

@[simp] theorem error_bind {a b : Type} (m : String) (f : a → Except String b) :
    (Except.error m : Except String a) >>= f = Except.error m := rfl


/-- With the empty catalogue, `resolveInput` never reaches the nested
`executeBlock` calls, so it leaves the state unchanged. -/
theorem resolveInput_state_eq (input : Value) (rti : List (String × JsVal))
    (s : State) (t : String) (ivs : List String) (v : JsVal) (s' : State)
    (h : resolveInput input rti s t ivs = .ok (v, s')) : s' = s := by
  cases input with
  | num q =>
    simp only [resolveInput] at h
    split at h
    all_goals try simp only [Except.ok.injEq, Prod.mk.injEq] at h
    all_goals first
      | (obtain ⟨h1, h2⟩ := h; exact h2.symm)
      | simp_all
  | bool b =>
    simp only [resolveInput] at h
    split at h
    all_goals try simp only [Except.ok.injEq, Prod.mk.injEq] at h
    all_goals first
      | (obtain ⟨h1, h2⟩ := h; exact h2.symm)
      | simp_all
  | str st =>
    simp only [resolveInput] at h
    repeat' split at h
    all_goals try simp only [Except.ok.injEq, Prod.mk.injEq] at h
    all_goals first
      | (obtain ⟨h1, h2⟩ := h; exact h2.symm)
      | simp_all
  | blk b =>
    simp only [resolveInput] at h
    cases hv : isValidBlock b ivs with
    | error e => rw [hv] at h; simp at h
    | ok valid =>
      rw [hv] at h
      simp only [ok_bind, blockDefs, Option.none_bind] at h
      repeat' split at h
      all_goals try simp only [Except.ok.injEq, Prod.mk.injEq] at h
      all_goals first
        | (obtain ⟨h1, h2⟩ := h; exact h2.symm)
        | simp_all

/-- `resolveInputOpt` leaves the state unchanged. -/
theorem resolveInputOpt_state_eq (input : Option Value) (rti : List (String × JsVal))
    (s : State) (t : String) (ivs : List String) (v : JsVal) (s' : State)
    (h : resolveInputOpt input rti s t ivs = .ok (v, s')) : s' = s := by
  cases input with
  | none => simp only [resolveInputOpt] at h; simp_all
  | some w =>
    simp only [resolveInputOpt] at h
    exact resolveInput_state_eq w rti s t ivs v s' h

/-- `resolveInput` with expected type `number` always produces a
numeric value (with the empty catalogue). -/
theorem resolveInput_number_num (input : Value) (rti : List (String × JsVal))
    (s : State) (ivs : List String) (v : JsVal) (s' : State)
    (h : resolveInput input rti s "number" ivs = .ok (v, s')) : v.isNum = true := by
  unfold JsVal.isNum
  cases input with
  | num q =>
    simp only [resolveInput] at h
    split at h
    all_goals try simp only [Except.ok.injEq, Prod.mk.injEq] at h
    all_goals first
      | (obtain ⟨h1, h2⟩ := h; subst h1; first | rfl | assumption)
      | simp_all
  | bool b =>
    simp only [resolveInput, defaultFor] at h
    split at h
    all_goals try simp only [Except.ok.injEq, Prod.mk.injEq] at h
    all_goals first
      | (obtain ⟨h1, h2⟩ := h; subst h1; first | rfl | assumption)
      | simp_all
  | str st =>
    simp only [resolveInput, defaultFor] at h
    repeat' split at h
    all_goals try simp only [Except.ok.injEq, Prod.mk.injEq] at h
    all_goals first
      | (obtain ⟨h1, h2⟩ := h; subst h1; first | rfl | assumption)
      | simp_all
  | blk b =>
    simp only [resolveInput, defaultFor] at h
    cases hv : isValidBlock b ivs with
    | error e => rw [hv] at h; simp at h
    | ok valid =>
      rw [hv] at h
      simp only [ok_bind, blockDefs, Option.none_bind] at h
      repeat' split at h
      all_goals try simp only [Except.ok.injEq, Prod.mk.injEq] at h
      all_goals first
        | (obtain ⟨h1, h2⟩ := h; subst h1; first | rfl | assumption)
        | simp_all

/-- `resolveInputOpt` with expected type `number` always produces a
numeric value. -/
theorem resolveInputOpt_number_num (input : Option Value) (rti : List (String × JsVal))
    (s : State) (ivs : List String) (v : JsVal) (s' : State)
    (h : resolveInputOpt input rti s "number" ivs = .ok (v, s')) : v.isNum = true := by
  cases input with
  | none =>
    simp only [resolveInputOpt, defaultFor] at h
    simp only [Except.ok.injEq, Prod.mk.injEq] at h
    obtain ⟨h1, h2⟩ := h
    subst h1
    rfl
  | some w =>
    simp only [resolveInputOpt] at h
    exact resolveInput_number_num w rti s ivs v s' h

/-- `resolveInput` with expected type `boolean` always produces a
boolean value (with the empty catalogue). -/
theorem resolveInput_boolean_bool (input : Value) (rti : List (String × JsVal))
    (s : State) (ivs : List String) (v : JsVal) (s' : State)
    (h : resolveInput input rti s "boolean" ivs = .ok (v, s')) : v.isBool = true := by
  unfold JsVal.isBool
  cases input with
  | num q =>
    simp only [resolveInput, defaultFor] at h
    split at h
    all_goals try simp only [Except.ok.injEq, Prod.mk.injEq] at h
    all_goals first
      | (obtain ⟨h1, h2⟩ := h; subst h1; first | rfl | assumption)
      | simp_all
  | bool b =>
    simp only [resolveInput] at h
    split at h
    all_goals try simp only [Except.ok.injEq, Prod.mk.injEq] at h
    all_goals first
      | (obtain ⟨h1, h2⟩ := h; subst h1; first | rfl | assumption)
      | simp_all
  | str st =>
    simp only [resolveInput, defaultFor] at h
    repeat' split at h
    all_goals try simp only [Except.ok.injEq, Prod.mk.injEq] at h
    all_goals first
      | (obtain ⟨h1, h2⟩ := h; subst h1; first | rfl | assumption)
      | simp_all
  | blk b =>
    simp only [resolveInput, defaultFor] at h
    cases hv : isValidBlock b ivs with
    | error e => rw [hv] at h; simp at h
    | ok valid =>
      rw [hv] at h
      simp only [ok_bind, blockDefs, Option.none_bind] at h
      repeat' split at h
      all_goals try simp only [Except.ok.injEq, Prod.mk.injEq] at h
      all_goals first
        | (obtain ⟨h1, h2⟩ := h; subst h1; first | rfl | assumption)
        | simp_all

/-- `resolveInputOpt` with expected type `boolean` always produces a
boolean value. -/
theorem resolveInputOpt_boolean_bool (input : Option Value) (rti : List (String × JsVal))
    (s : State) (ivs : List String) (v : JsVal) (s' : State)
    (h : resolveInputOpt input rti s "boolean" ivs = .ok (v, s')) : v.isBool = true := by
  cases input with
  | none =>
    simp only [resolveInputOpt, defaultFor] at h
    simp only [Except.ok.injEq, Prod.mk.injEq] at h
    obtain ⟨h1, h2⟩ := h
    subst h1
    rfl
  | some w =>
    simp only [resolveInputOpt] at h
    exact resolveInput_boolean_bool w rti s ivs v s' h



theorem bind_eq_ok {a b : Type} {x : Except String a} {f : a → Except String b}
    {r : b} : x >>= f = .ok r ↔ ∃ v, x = .ok v ∧ f v = .ok r := by
  cases x <;> simp [Except.bind]

theorem bind_eq_error {a b : Type} {x : Except String a} {f : a → Except String b}
    {e : String} :
    x >>= f = .error e ↔ x = .error e ∨ ∃ v, x = .ok v ∧ f v = .error e := by
  cases x <;> simp [Except.bind]

theorem isValidBlock_ok_true (b : Block) (ivs : List String) (r : Bool)
    (h : isValidBlock b ivs = .ok r) : r = true := by
  obtain ⟨name, inputs, varN, val, cond, acts, els⟩ := b
  unfold isValidBlock at h
  split at h
  · simp_all
  split at h
  · -- set branch
    simp only [Bool.not_eq_true'] at h
    split at h
    · simp_all
    · rw [bind_eq_ok] at h
      obtain ⟨ok1, h1, h⟩ := h
      split at h <;> simp_all
  split at h
  · -- return branch
    split at h
    · rw [bind_eq_ok] at h
      obtain ⟨ok1, h1, h⟩ := h
      split at h <;> simp_all
    · simp_all
  split at h
  · -- if / ifElse branch
    rw [bind_eq_ok] at h
    obtain ⟨okc, hc, h⟩ := h
    split at h
    · simp_all
    · rw [bind_eq_ok] at h
      obtain ⟨oka, ha, h⟩ := h
      split at h
      · simp_all
      · split at h
        · rw [bind_eq_ok] at h
          obtain ⟨oke, he, h⟩ := h
          split at h <;> simp_all
        · simp_all
  · -- generic branch: the catalogue is empty, so the lookup throws
    simp only [blockDefs] at h
    simp_all



/-- `every(isValidBlock)` reports `true` and certifies every block. -/
theorem allValidBlocks_ok (bs : List Block) (ivs : List String) (r : Bool)
    (h : allValidBlocks bs ivs = .ok r) :
    r = true ∧ ∀ b ∈ bs, isValidBlock b ivs = .ok true := by
  induction bs with
  | nil => simp only [allValidBlocks] at h; simp_all
  | cons b rest ih =>
    simp only [allValidBlocks] at h
    rw [bind_eq_ok] at h
    obtain ⟨ok1, hok1, h⟩ := h
    have hok1t := isValidBlock_ok_true b ivs ok1 hok1
    subst hok1t
    simp only [if_true] at h
    obtain ⟨hr, hall⟩ := ih h
    exact ⟨hr, by simp_all⟩

/-- `every(isValidBlock)` succeeds on a list of valid blocks. -/
theorem allValidBlocks_of_all (bs : List Block) (ivs : List String)
    (hall : ∀ b ∈ bs, isValidBlock b ivs = .ok true) :
    allValidBlocks bs ivs = .ok true := by
  induction bs with
  | nil => simp [allValidBlocks]
  | cons b rest ih =>
    simp only [allValidBlocks]
    rw [hall b (by simp)]
    simp only [ok_bind, if_true]
    exact ih fun b hb => hall b (by simp [hb])

/-- The constructor's `filter(isValidBlock)` keeps every block (the
predicate throws rather than returning `false`), and when it completes
every supplied block is valid. -/
theorem filterValidBlocks_ok (blocks : List Block) (ivs : List String)
    (l : List Block) (h : filterValidBlocks blocks ivs = .ok l) :
    l = blocks ∧ ∀ b ∈ blocks, isValidBlock b ivs = .ok true := by
  induction blocks generalizing l with
  | nil => simp only [filterValidBlocks] at h; simp_all
  | cons b rest ih =>
    simp only [filterValidBlocks] at h
    rw [bind_eq_ok] at h
    obtain ⟨ok1, hok1, h⟩ := h
    rw [bind_eq_ok] at h
    obtain ⟨rest', hrest', h⟩ := h
    have hok1t := isValidBlock_ok_true b ivs ok1 hok1
    subst hok1t
    obtain ⟨hl, hall⟩ := ih rest' hrest'
    subst hl
    simp only [if_true] at h
    cases h
    exact ⟨rfl, by simp_all⟩



mutual

/-- `JSON.parse(JSON.stringify(b))` produces a block structurally equal
to `b` (a fresh copy with the same shape). -/
theorem deepCopyBlock_eq (b : Block) : deepCopyBlock b = b := by
  obtain ⟨n, i, v, val, c, a, e⟩ := b
  unfold deepCopyBlock
  rw [deepCopyValueList_eq, deepCopyOptValue_eq, deepCopyOptValue_eq,
    deepCopyBlockList_eq, deepCopyBlockList_eq]

theorem deepCopyValue_eq (v : Value) : deepCopyValue v = v := by
  cases v with
  | num q => rfl
  | bool b => rfl
  | str s => rfl
  | blk b => unfold deepCopyValue; rw [deepCopyBlock_eq]

theorem deepCopyOptValue_eq (v : Option Value) : deepCopyOptValue v = v := by
  cases v with
  | none => rfl
  | some w => unfold deepCopyOptValue; rw [deepCopyValue_eq]

theorem deepCopyValueList_eq (l : List Value) : deepCopyValueList l = l := by
  cases l with
  | nil => rfl
  | cons v rest => unfold deepCopyValueList; rw [deepCopyValue_eq, deepCopyValueList_eq]

theorem deepCopyBlockList_eq (l : List Block) : deepCopyBlockList l = l := by
  cases l with
  | nil => rfl
  | cons b rest => unfold deepCopyBlockList; rw [deepCopyBlock_eq, deepCopyBlockList_eq]

end



/-- `filter(isValidBlock)` on a list of valid blocks keeps them all. -/
theorem filterValidBlocks_of_all (blocks : List Block) (ivs : List String)
    (hall : ∀ b ∈ blocks, isValidBlock b ivs = .ok true) :
    filterValidBlocks blocks ivs = .ok blocks := by
  induction blocks with
  | nil => simp [filterValidBlocks]
  | cons b rest ih =>
    simp only [filterValidBlocks]
    rw [hall b (by simp)]
    simp only [ok_bind]
    rw [ih fun b hb => hall b (by simp [hb])]
    simp

/-- The canonical return block is valid for any input-variable list. -/
theorem returnOutBlock_valid (ivs : List String) :
    isValidBlock returnOutBlock ivs = .ok true := by
  simp [returnOutBlock, isValidBlock, isValidValue, variablesList]

/-- The constructor's fallback program is valid for any input-variable
list. -/
theorem fallbackBlocks_valid (ivs : List String) :
    ∀ b ∈ fallbackBlocks ivs, isValidBlock b ivs = .ok true := by
  intro b hb
  simp only [fallbackBlocks, List.mem_cons, List.mem_singleton] at hb
  rcases hb with hb | hb | hb
  · subst hb
    cases ivs with
    | nil =>
      simp [isValidBlock, fallbackSetValue, isValidValueOpt, isValidValue,
        isValidProgramVariableName, trimIsEmpty, startsWithChar, variablesList, constants]
    | cons v rest =>
      simp [isValidBlock, fallbackSetValue, isValidValueOpt, isValidValue,
        isValidProgramVariableName, trimIsEmpty, startsWithChar, variablesList]
  · subst hb; exact returnOutBlock_valid ivs
  · cases hb

/-- The constructor is the identity on a non-empty list of valid blocks
that contains a `return` block. -/
theorem progenyProgram_of_valid (blocks : List Block) (ivs : List String)
    (hne : blocks ≠ [])
    (hall : ∀ b ∈ blocks, isValidBlock b ivs = .ok true)
    (hret : ∃ b ∈ blocks, b.blockName = "return") :
    progenyProgram blocks ivs = .ok { blocks := blocks, inputVariables := ivs } := by
  have hlen : blocks.length > 0 := List.length_pos.mpr hne
  have hlz : ¬ blocks.length = 0 := by simpa using hne
  have hallfalse : (blocks.all fun b => decide (b.blockName ≠ "return")) = false := by
    obtain ⟨b, hb, hbn⟩ := hret
    refine List.all_eq_false.mpr ⟨b, hb, by simp [hbn]⟩
  simp only [progenyProgram, hlen, if_true, gt_iff_lt]
  rw [filterValidBlocks_of_all blocks ivs hall]
  simp only [ok_bind, if_neg hlz, hallfalse, Bool.false_eq_true, if_false]
  rw [allValidBlocks_of_all blocks ivs hall]
  simp only [ok_bind, Bool.not_true, Bool.false_eq_true, if_false]



/-- The constructor on an empty block list produces the fallback
program. -/
theorem progenyProgram_nil (ivs : List String) :
    progenyProgram [] ivs = .ok { blocks := fallbackBlocks ivs, inputVariables := ivs } := by
  have hfb : ((fallbackBlocks ivs).all fun b => decide (b.blockName ≠ "return")) = false := by
    simp [fallbackBlocks, returnOutBlock, Block.blockName]
  have hfl : (fallbackBlocks ivs).length = 2 := rfl
  have hfb2 : ¬ ∀ x ∈ fallbackBlocks ivs, ¬x.blockName = "return" := by
    simp [fallbackBlocks, returnOutBlock, Block.blockName]
  simp only [progenyProgram, List.length_nil, gt_iff_lt, Nat.lt_irrefl, if_false,
    pure, Except.pure, ok_bind, if_true, hfl, hfb, Bool.false_eq_true]
  norm_num
  rw [if_neg hfb2] at *
  rw [allValidBlocks_of_all _ _ (fallbackBlocks_valid ivs)]
  simp

/-- The constructor on a non-empty list of valid, `return`-free blocks
appends the canonical return block. -/
theorem progenyProgram_append_return (blocks : List Block) (ivs : List String)
    (hne : blocks ≠ [])
    (hall : ∀ b ∈ blocks, isValidBlock b ivs = .ok true)
    (hnr : ∀ b ∈ blocks, b.blockName ≠ "return") :
    progenyProgram blocks ivs =
      .ok { blocks := blocks ++ [returnOutBlock], inputVariables := ivs } := by
  have hlen : blocks.length > 0 := List.length_pos.mpr hne
  have hlz : ¬ blocks.length = 0 := by simpa using hne
  have halltrue : (blocks.all fun b => decide (b.blockName ≠ "return")) = true := by
    simp only [List.all_eq_true]
    intro b hb
    simpa using hnr b hb
  have hvalid2 : ∀ b ∈ blocks ++ [returnOutBlock], isValidBlock b ivs = .ok true := by
    intro b hb
    rcases List.mem_append.mp hb with h1 | h1
    · exact hall b h1
    · simp only [List.mem_singleton] at h1; subst h1; exact returnOutBlock_valid ivs
  simp only [progenyProgram, hlen, if_true, gt_iff_lt]
  rw [filterValidBlocks_of_all blocks ivs hall]
  simp only [ok_bind, if_neg hlz, halltrue, if_true]
  rw [allValidBlocks_of_all _ _ hvalid2]
  simp



/-- C7, corrected.  The constructed program always contains a `return`
block and every block of it passes validation; the canonical return block is
appended only when the supplied blocks contain no `return` anywhere, so when
they contain one in a non-final position the last statement is not a
`return` (see `test_c7_counterexample`).  On empty input the fallback
program is used. -/
theorem test_c7_amended (blocks : List Block) (ivs : List String)
    (p : Program) (h : progenyProgram blocks ivs = .ok p) :
    (∃ b ∈ p.blocks, b.blockName = "return") ∧
    (∀ b ∈ p.blocks, isValidBlock b ivs = .ok true) ∧
    ((∀ b ∈ blocks, b.blockName ≠ "return") → p.blocks.getLast? = some returnOutBlock) ∧
    (blocks = [] → p.blocks = fallbackBlocks ivs) := by
  by_cases hb : blocks = []
  · subst hb
    rw [progenyProgram_nil] at h
    cases h
    refine ⟨⟨returnOutBlock, by simp [fallbackBlocks], rfl⟩, fallbackBlocks_valid ivs,
      ?_, fun _ => rfl⟩
    intro _
    simp [fallbackBlocks]
  · have hcopy := h
    simp only [progenyProgram] at hcopy
    have hlen : blocks.length > 0 := List.length_pos.mpr hb
    rw [if_pos hlen, bind_eq_ok] at hcopy
    obtain ⟨processed, hfil, -⟩ := hcopy
    obtain ⟨hpb, hall⟩ := filterValidBlocks_ok blocks ivs processed hfil
    by_cases hnr : ∀ b ∈ blocks, b.blockName ≠ "return"
    · rw [progenyProgram_append_return blocks ivs hb hall hnr] at h
      cases h
      refine ⟨⟨returnOutBlock, by simp, rfl⟩, ?_, fun _ => by simp, fun he => absurd he hb⟩
      intro b hbm
      rcases List.mem_append.mp hbm with h1 | h1
      · exact hall b h1
      · simp only [List.mem_singleton] at h1
        subst h1
        exact returnOutBlock_valid ivs
    · push_neg at hnr
      obtain ⟨b0, hb0, hb0n⟩ := hnr
      rw [progenyProgram_of_valid blocks ivs hb hall ⟨b0, hb0, hb0n⟩] at h
      cases h
      exact ⟨⟨b0, hb0, hb0n⟩, hall, fun hno => absurd hb0n (hno b0 hb0),
        fun he => absurd he hb⟩



/-- C6.  Crossover of two valid parent programs over the same input
variables yields a valid child whose block list contains exactly one
`return` block, positioned last (the canonical `{return, [out]}`), and whose
non-return block count does not exceed `MAX_BLOCKS = 50`. -/
theorem test_c6_crossover (p1 p2 : Program) (cp1 cp2 : ℕ) (g : Value)
    (h1 : ValidProgram p1) (h2 : ValidProgram p2)
    (hsame : p2.inputVariables = p1.inputVariables) :
    ∃ c, crossover p1 p2 cp1 cp2 g = .ok c ∧
      (c.blocks.filter fun b => b.blockName = "return").length = 1 ∧
      c.blocks.getLast? = some returnOutBlock ∧
      (c.blocks.filter fun b => b.blockName ≠ "return").length ≤ MAX_BLOCKS ∧
      ValidProgram c := by
  obtain ⟨h1ne, h1v, -⟩ := h1
  obtain ⟨h2ne, h2v, -⟩ := h2
  rw [hsame] at h2v
  have hn1 : ¬ p1.blocks.length = 0 := by simpa using h1ne
  have hn2 : ¬ p2.blocks.length = 0 := by simpa using h2ne
  -- the spliced, return-free, truncated block list
  set raw := (p1.blocks.take cp1) ++ (p2.blocks.drop cp2) with hraw
  set nonRet := raw.filter (fun b => b.blockName ≠ "return") with hnr
  set nonRet2 := if nonRet.length > MAX_BLOCKS then nonRet.take MAX_BLOCKS else nonRet
    with hnr2
  have hmemNR2 : ∀ b ∈ nonRet2, b ∈ nonRet := by
    intro b hb
    rw [hnr2] at hb
    split at hb
    · exact List.take_subset _ _ hb
    · exact hb
  have hnrProp : ∀ b ∈ nonRet2, b.blockName ≠ "return" := by
    intro b hb
    have hm := hmemNR2 b hb
    rw [hnr] at hm
    exact of_decide_eq_true (List.mem_filter.mp hm).2
  have hnrValid : ∀ b ∈ nonRet2, isValidBlock b p1.inputVariables = .ok true := by
    intro b hb
    have hm := hmemNR2 b hb
    rw [hnr] at hm
    have hbr := (List.mem_filter.mp hm).1
    rw [hraw] at hbr
    rcases List.mem_append.mp hbr with hm | hm
    · exact h1v b (List.take_subset _ _ hm)
    · exact h2v b (List.drop_subset _ _ hm)
  have hfinalValid : ∀ b ∈ nonRet2 ++ [returnOutBlock],
      isValidBlock b p1.inputVariables = .ok true := by
    intro b hb
    rcases List.mem_append.mp hb with hm | hm
    · exact hnrValid b hm
    · simp only [List.mem_singleton] at hm
      subst hm
      exact returnOutBlock_valid _
  have hcross : crossover p1 p2 cp1 cp2 g =
      progenyProgram (nonRet2 ++ [returnOutBlock]) p1.inputVariables := by
    have c0 : (decide (p1.blocks.length = 0) && decide (p2.blocks.length = 0)) = false := by
      simp [hn1]
    have c1 : decide (p1.blocks.length = 0) = false := by simp [hn1]
    have c2 : decide (p2.blocks.length = 0) = false := by simp [hn2]
    simp only [crossover, c0, c1, c2, Bool.false_eq_true, if_false, deepCopyBlockList_eq,
      Bool.and_self]
    rw [if_neg hn1, if_neg hn2, ← hraw, ← hnr, ← hnr2]
  rw [progenyProgram_of_valid _ _ (by simp) hfinalValid
    ⟨returnOutBlock, by simp, rfl⟩] at hcross
  refine ⟨_, hcross, ?_, ?_, ?_, ?_⟩
  · -- exactly one return block
    rw [List.filter_append]
    have : nonRet2.filter (fun b => b.blockName = "return") = [] := by
      simp only [List.filter_eq_nil_iff]
      intro b hb
      simpa using hnrProp b hb
    rw [this]
    simp [returnOutBlock, Block.blockName]
  · -- the return block is last
    simp [List.getLast?_concat]
  · -- block-count bound
    rw [List.filter_append]
    have h1f : nonRet2.filter (fun b => b.blockName ≠ "return") = nonRet2 := by
      rw [List.filter_eq_self]
      intro b hb
      simpa using hnrProp b hb
    have h2f : [returnOutBlock].filter (fun b => b.blockName ≠ "return") = [] := by
      simp [returnOutBlock, Block.blockName]
    rw [h1f, h2f, List.append_nil]
    rw [hnr2]
    split
    · simpa using Nat.min_le_left MAX_BLOCKS nonRet.length
    · omega
  · -- the child is a valid program
    exact ⟨by simp, hfinalValid, ⟨returnOutBlock, by simp, rfl⟩⟩



theorem startsWithChar_out : startsWithChar "out" 'b' = false := rfl

/-- Executing any block (or action list) preserves the invariant that
`out` is bound to a number: a `set` targeting `out` resolves its value
with expected type `number`, which always yields a number. -/
theorem exec_outNum : ∀ n : ℕ,
    (∀ (b : Block) rti s ivs r s', sizeOf b < n →
      executeBlock b rti s ivs = .ok (r, s') → OutNum s.vars → OutNum s'.vars) ∧
    (∀ (bs : List Block) rti s ivs s', sizeOf bs < n →
      executeActionList bs rti s ivs = .ok s' → OutNum s.vars → OutNum s'.vars) := by
  intro n
  induction n using Nat.strong_induction_on with
  | _ n ih =>
    constructor
    · intro b rti s ivs r s' hsz hexec hout
      obtain ⟨name, inputs, varN, val, cond, acts, els⟩ := b
      have hszActs : sizeOf acts + 1 < n := by
        rw [Block.mk.sizeOf_spec] at hsz; omega
      have hszEls : sizeOf els + 1 < n := by
        rw [Block.mk.sizeOf_spec] at hsz; omega
      unfold executeBlock at hexec
      rw [bind_eq_ok] at hexec
      obtain ⟨valid, hval, hexec⟩ := hexec
      split at hexec
      · -- invalid block: warn and return 0 with the state unchanged
        simp only [Except.ok.injEq, Prod.mk.injEq] at hexec
        rw [← hexec.2]
        exact hout
      split at hexec
      · -- set
        split at hexec
        · -- varN = some v
          rw [bind_eq_ok] at hexec
          obtain ⟨⟨resolved, s1⟩, hres, hexec⟩ := hexec
          have hs1 : s1 = s := resolveInputOpt_state_eq _ _ _ _ _ _ _ hres
          subst hs1
          rename_i v
          by_cases hv : v = "out"
          · subst hv
            rw [startsWithChar_out] at hres
            simp only [Bool.false_eq_true, if_false] at hres
            have hnum := resolveInputOpt_number_num _ _ _ _ _ _ hres
            cases resolved with
            | num q =>
              simp only [Except.ok.injEq, Prod.mk.injEq] at hexec
              rw [← hexec.2]
              exact ⟨q, by simp [List.lookup]⟩
            | bool bb => simp [JsVal.isBool, JsVal.isNum] at hnum
            | str st => simp [JsVal.isNum] at hnum
          · have hne : ("out" == v) = false := beq_eq_false_iff_ne.mpr (Ne.symm hv)
            cases resolved with
            | num q =>
              simp only [Except.ok.injEq, Prod.mk.injEq] at hexec
              rw [← hexec.2]
              obtain ⟨q0, hq0⟩ := hout
              refine ⟨q0, ?_⟩
              simp only [List.lookup, hne]
              exact hq0
            | bool bb =>
              simp only [Except.ok.injEq, Prod.mk.injEq] at hexec
              rw [← hexec.2]
              obtain ⟨q0, hq0⟩ := hout
              refine ⟨q0, ?_⟩
              simp only [List.lookup, hne]
              exact hq0
            | str st =>
              simp only [Except.ok.injEq, Prod.mk.injEq] at hexec
              rw [← hexec.2]
              exact hout
        · -- varN = none
          simp only [Except.ok.injEq, Prod.mk.injEq] at hexec
          rw [← hexec.2]
          exact hout
      split at hexec
      · -- return
        split at hexec
        · rw [bind_eq_ok] at hexec
          obtain ⟨⟨valueToReturn, s1⟩, hres, hexec⟩ := hexec
          have hs1 : s1 = s := resolveInput_state_eq _ _ _ _ _ _ _ hres
          subst hs1
          cases valueToReturn <;>
            (simp only [Except.ok.injEq, Prod.mk.injEq] at hexec; rw [← hexec.2]; exact hout)
        · simp only [Except.ok.injEq, Prod.mk.injEq] at hexec
          rw [← hexec.2]
          exact hout
      split at hexec
      · -- if
        rw [bind_eq_ok] at hexec
        obtain ⟨⟨condition, s1⟩, hres, hexec⟩ := hexec
        have hs1 : s1 = s := resolveInputOpt_state_eq _ _ _ _ _ _ _ hres
        subst hs1
        try dsimp only at hexec
        split at hexec
        · rw [bind_eq_ok] at hexec
          obtain ⟨s2, hacts, hexec⟩ := hexec
          simp only [Except.ok.injEq, Prod.mk.injEq] at hexec
          rw [← hexec.2]
          exact (ih (sizeOf acts + 1) (by omega)).2 acts rti s1 ivs s2 (by omega) hacts hout
        · simp only [Except.ok.injEq, Prod.mk.injEq] at hexec
          rw [← hexec.2]
          exact hout
      split at hexec
      · -- ifElse
        rw [bind_eq_ok] at hexec
        obtain ⟨⟨condition, s1⟩, hres, hexec⟩ := hexec
        have hs1 : s1 = s := resolveInputOpt_state_eq _ _ _ _ _ _ _ hres
        subst hs1
        try dsimp only at hexec
        split at hexec
        · rw [bind_eq_ok] at hexec
          obtain ⟨s2, hacts, hexec⟩ := hexec
          simp only [Except.ok.injEq, Prod.mk.injEq] at hexec
          rw [← hexec.2]
          exact (ih (sizeOf acts + 1) (by omega)).2 acts rti s1 ivs s2 (by omega) hacts hout
        · rw [bind_eq_ok] at hexec
          obtain ⟨s2, hacts, hexec⟩ := hexec
          simp only [Except.ok.injEq, Prod.mk.injEq] at hexec
          rw [← hexec.2]
          exact (ih (sizeOf els + 1) (by omega)).2 els rti s1 ivs s2 (by omega) hacts hout
      · -- generic branch: empty catalogue
        simp only [blockDefs] at hexec
        simp only [Except.ok.injEq, Prod.mk.injEq] at hexec
        rw [← hexec.2]
        exact hout
    · intro bs rti s ivs s' hsz hexec hout
      cases bs with
      | nil =>
        unfold executeActionList at hexec
        cases hexec
        exact hout
      | cons a rest =>
        rw [List.cons.sizeOf_spec] at hsz
        unfold executeActionList at hexec
        rw [bind_eq_ok] at hexec
        obtain ⟨⟨r1, s1⟩, hexe1, hexec⟩ := hexec
        have h1 := (ih (sizeOf a + 1) (by omega)).1 a rti s ivs r1 s1 (by omega) hexe1 hout
        exact (ih (sizeOf rest + 1) (by omega)).2 rest rti s1 ivs s' (by omega) hexec h1



/-- `Except` bind is associative. -/
theorem except_bind_assoc {α β γ : Type} (x : Except String α)
    (f : α → Except String β) (g : β → Except String γ) :
    x >>= f >>= g = x >>= fun a => f a >>= g := by
  cases x <;> rfl

/-- Executing an appended block list is executing the first part and
then the second from the resulting state: a `return` block never halts
the iteration. -/
theorem runBlocks_append (xs ys : List Block) (rti : List (String × JsVal))
    (s : State) (ivs : List String) :
    runBlocks (xs ++ ys) rti s ivs =
      runBlocks xs rti s ivs >>= fun s1 => runBlocks ys rti s1 ivs := by
  induction xs generalizing s with
  | nil => simp [runBlocks]
  | cons b rest ih =>
    rw [List.cons_append]
    simp only [runBlocks]
    cases hval : isValidBlock b ivs with
    | error e => simp [hval]
    | ok v =>
      simp only [hval, ok_bind]
      split
      · cases hexe : executeBlock b rti s ivs with
        | error e => simp [hexe]
        | ok d =>
          simp only [hexe, ok_bind, pure, Except.pure]
          exact ih d.2
      · simp only [pure, Except.pure, ok_bind]
        exact ih s

/-- Running a block list preserves the `out`-is-numeric invariant. -/
theorem runBlocks_outNum (blocks : List Block) (rti : List (String × JsVal))
    (s : State) (ivs : List String) (s' : State)
    (h : runBlocks blocks rti s ivs = .ok s') (hout : OutNum s.vars) :
    OutNum s'.vars := by
  induction blocks generalizing s with
  | nil =>
    unfold runBlocks at h
    cases h
    exact hout
  | cons b rest ih =>
    unfold runBlocks at h
    cases hval : isValidBlock b ivs with
    | error e => rw [hval] at h; simp at h
    | ok v =>
      rw [hval] at h
      simp only [ok_bind] at h
      split at h
      · rw [bind_eq_ok] at h
        obtain ⟨⟨r1, s2⟩, hexe, h⟩ := h
        try dsimp only at h
        simp only [pure, Except.pure, ok_bind] at h
        exact ih s2 h
          ((exec_outNum (sizeOf b + 1)).1 b rti s ivs r1 s2 (by omega) hexe hout)
      · simp only [pure, Except.pure, ok_bind] at h
        exact ih s h hout

/-- Executing the canonical return block copies the numeric value of
`out` into the `output` slot and leaves the variables untouched. -/
theorem exec_returnOut (i : List (String × JsVal)) (s : State) (ivs : List String)
    (q : ℚ) (hq : s.vars.lookup "out" = some (.num q)) :
    executeBlock returnOutBlock i s ivs = .ok (none, { s with output := q }) := by
  have hv := returnOutBlock_valid ivs
  unfold returnOutBlock at hv ⊢
  unfold executeBlock
  rw [hv]
  simp [resolveInput, hq, variablesList]



/-- C2, corrected.  For a program whose last block is the canonical
`{return, [out]}` and whose seeded environment binds `out` to a number, a
successful `run` returns the final state's `output`, and `out` is bound in
the final environment to exactly that number.  Without that canonical final
block the original claim fails (see `test_c2_counterexample`). -/
theorem test_c2_amended (p : Program) (i : List (String × JsVal)) (bs : List Block)
    (hlast : p.blocks = bs ++ [returnOutBlock])
    (hseed : OutNum (seedVars p.inputVariables i))
    (sF : State)
    (hrun : runBlocks p.blocks i ⟨seedVars p.inputVariables i, 0⟩ p.inputVariables = .ok sF) :
    run p i = .ok sF.output ∧ sF.vars.lookup "out" = some (.num sF.output) := by
  constructor
  · unfold run
    dsimp only
    rw [hrun]
    rfl
  · rw [hlast, runBlocks_append, bind_eq_ok] at hrun
    obtain ⟨s1, hbs, hret⟩ := hrun
    obtain ⟨q1, hq1⟩ := runBlocks_outNum bs i _ _ s1 hbs hseed
    unfold runBlocks at hret
    rw [returnOutBlock_valid] at hret
    simp only [ok_bind, if_true] at hret
    rw [exec_returnOut i s1 p.inputVariables q1 hq1] at hret
    simp only [ok_bind, pure, Except.pure] at hret
    unfold runBlocks at hret
    cases hret
    simpa using hq1

theorem test_c2_witness :
    run { blocks := [Block.mk "set" [] (some "out") (some (.num 5)) none [] [],
        returnOutBlock], inputVariables := [] } [] =
      .ok ((5 : ℚ)) ∧
    (List.lookup "out"
        (State.mk [("out", JsVal.num 5), ("out", JsVal.num 0), ("v0", JsVal.num 0),
          ("v1", JsVal.num 0), ("v2", JsVal.num 0)] 5).vars) =
      some (.num 5) := by
  have h := test_c2_amended
    { blocks := [Block.mk "set" [] (some "out") (some (.num 5)) none [] [],
        returnOutBlock], inputVariables := [] }
    []
    [Block.mk "set" [] (some "out") (some (.num 5)) none [] []]
    rfl
    ⟨0, rfl⟩
    (State.mk [("out", JsVal.num 5), ("out", JsVal.num 0), ("v0", JsVal.num 0),
      ("v1", JsVal.num 0), ("v2", JsVal.num 0)] 5)
    (by
      simp [runBlocks, executeBlock, resolveInput, resolveInputOpt, isValidBlock,
        isValidValue, isValidValueOpt, isValidProgramVariableName, seedVars, variablesList,
        blockDefs, defaultFor, returnOutBlock, List.lookup, trimIsEmpty, startsWithChar])
  exact h



/-- C3.  A `return` block resolves its first input with expected type
`number` and writes the number into the state's dedicated `output` slot
without halting: `runBlocks` continues with the remaining top-level blocks,
and `run` returns whatever the `output` slot holds after the last one. -/
theorem test_c3_semantics :
    (∀ (v : Value) (rest : List Value) (varN : Option String) (val cond : Option Value)
      (acts els : List Block) (i : List (String × JsVal)) (s : State) (ivs : List String),
      isValidBlock (.mk "return" (v :: rest) varN val cond acts els) ivs = .ok true →
      executeBlock (.mk "return" (v :: rest) varN val cond acts els) i s ivs = (do
        let (valueToReturn, s') ← resolveInput v i s "number" ivs
        match valueToReturn with
        | .num q => Except.ok (none, { s' with output := q })
        | _ => Except.ok (none, s'))) ∧
    (∀ (xs ys : List Block) (i : List (String × JsVal)) (s : State) (ivs : List String),
      runBlocks (xs ++ ys) i s ivs =
        runBlocks xs i s ivs >>= fun s1 => runBlocks ys i s1 ivs) ∧
    (∀ (p : Program) (i : List (String × JsVal)),
      run p i =
        (runBlocks p.blocks i ⟨seedVars p.inputVariables i, 0⟩ p.inputVariables).map
          (fun sF => sF.output)) := by
  refine ⟨?_, runBlocks_append, ?_⟩
  · intro v rest varN val cond acts els i s ivs hvalid
    unfold executeBlock
    rw [hvalid]
    simp only [ok_bind, Bool.not_true, Bool.false_eq_true, if_false]
    norm_num
    intro hcontra
    exact absurd hcontra (by simp)
  · intro p i
    unfold run
    dsimp only
    cases hr : runBlocks p.blocks i ⟨seedVars p.inputVariables i, 0⟩ p.inputVariables <;>
      simp [hr, Except.map]



theorem test_c3_witness :
    executeBlock (Block.mk "return" [.num 7] none none none [] []) [] ⟨[], 0⟩ [] = (do
      let (valueToReturn, s') ← resolveInput (.num 7) [] (⟨[], 0⟩ : State) "number" []
      match valueToReturn with
      | .num q => Except.ok (none, { s' with output := q })
      | _ => Except.ok (none, s')) ∧
    runBlocks ([returnOutBlock] ++ [returnOutBlock]) [] ⟨[], 0⟩ [] =
      (runBlocks [returnOutBlock] [] ⟨[], 0⟩ [] >>= fun s1 =>
        runBlocks [returnOutBlock] [] s1 []) ∧
    run ⟨[returnOutBlock], []⟩ [] =
      (runBlocks [returnOutBlock] [] ⟨seedVars [] [], 0⟩ []).map (fun sF => sF.output) := by
  have h := test_c3_semantics
  exact ⟨h.1 (.num 7) [] none none none [] [] [] ⟨[], 0⟩ []
      (by simp [isValidBlock, isValidValue]),
    h.2.1 [returnOutBlock] [returnOutBlock] [] ⟨[], 0⟩ [],
    h.2.2 ⟨[returnOutBlock], []⟩ []⟩

theorem test_c1_counterexample :
    run { blocks := [Block.mk "bogus" [] none none none [] []], inputVariables := [] } [] =
      .error "Validation Error: Unknown blockName" := by
  simp [run, runBlocks, isValidBlock, blockDefs, seedVars]

/-- C1, corrected.  The spec says `run` never throws, but `isValidBlock`
throws a validation error on any block outside the four recognised kinds and
the error propagates to the caller (see `test_c1_counterexample`).  Amended:
value resolution recovers type mismatches and undefined variables with the
type-appropriate default (`0` for `number`, `false` for `boolean`), while a
validation error raised on a top-level block escapes `runBlocks`. -/
theorem test_c1_amended :
    (∀ (s : State) (i : List (String × JsVal)) (ivs : List String) (name : String),
      s.vars.lookup name = none →
        resolveInput (.str name) i s "number" ivs = .ok (.num 0, s) ∧
        resolveInput (.str name) i s "boolean" ivs = .ok (.bool false, s)) ∧
    (∀ (s : State) (i : List (String × JsVal)) (ivs : List String) (name : String)
      (b : Bool), s.vars.lookup name = some (.bool b) →
        resolveInput (.str name) i s "number" ivs = .ok (.num 0, s)) ∧
    (∀ (s : State) (i : List (String × JsVal)) (ivs : List String) (name : String)
      (q : ℚ), s.vars.lookup name = some (.num q) →
        resolveInput (.str name) i s "boolean" ivs = .ok (.bool false, s)) ∧
    (∀ (b : Block) (ivs : List String) (e : String), isValidBlock b ivs = .error e →
      ∀ (rest : List Block) (i : List (String × JsVal)) (s : State),
        runBlocks (b :: rest) i s ivs = .error e) := by
  refine ⟨?_, ?_, ?_, ?_⟩
  · intro s i ivs name hnone
    constructor <;> simp [resolveInput, hnone, defaultFor]
  · intro s i ivs name b hsome
    simp [resolveInput, hsome, defaultFor]
  · intro s i ivs name q hsome
    simp [resolveInput, hsome, defaultFor]
  · intro b ivs e herr rest i s
    unfold runBlocks
    rw [herr]
    rfl

theorem test_c1_witness :
    (resolveInput (.str "v9") [] ⟨[("b0", .bool true)], 0⟩ "number" [] =
      .ok (.num 0, ⟨[("b0", .bool true)], 0⟩) ∧
      resolveInput (.str "v9") [] ⟨[("b0", .bool true)], 0⟩ "boolean" [] =
        .ok (.bool false, ⟨[("b0", .bool true)], 0⟩)) ∧
    resolveInput (.str "b0") [] ⟨[("b0", .bool true)], 0⟩ "number" [] =
      .ok (.num 0, ⟨[("b0", .bool true)], 0⟩) ∧
    resolveInput (.str "out") [] ⟨[("out", .num 3)], 0⟩ "boolean" [] =
      .ok (.bool false, ⟨[("out", .num 3)], 0⟩) ∧
    runBlocks [Block.mk "bogus" [] none none none [] []] [] ⟨[], 0⟩ [] =
      .error "Validation Error: Unknown blockName" := by
  have h := test_c1_amended
  refine ⟨h.1 ⟨[("b0", .bool true)], 0⟩ [] [] "v9" (by simp [List.lookup]),
    h.2.1 ⟨[("b0", .bool true)], 0⟩ [] [] "b0" true (by simp [List.lookup]),
    h.2.2.1 ⟨[("out", .num 3)], 0⟩ [] [] "out" 3 (by simp [List.lookup]),
    h.2.2.2 (Block.mk "bogus" [] none none none [] []) [] _
      (by simp [isValidBlock, blockDefs]) [] [] ⟨[], 0⟩⟩



/-- The accumulator loop of `evaluate` computes
`1 / (1 + (acc + Σ |result - expected|))` when every case runs
successfully. -/
theorem evaluateLoop_spec (p : Program) (cases : List Case) (f : Case → ℚ)
    (hruns : ∀ c ∈ cases, run p c.inputs = .ok (f c)) (acc : ℚ) :
    evaluateLoop p cases acc =
      .ok (1 / (1 + (acc + ((cases.map fun c => |f c - c.expected|).sum)))) := by
  induction cases generalizing acc with
  | nil => simp [evaluateLoop]
  | cons c rest ih =>
    simp only [evaluateLoop]
    rw [hruns c (by simp)]
    simp only [ok_bind]
    rw [ih (fun c hc => hruns c (by simp [hc])) (acc + |f c - c.expected|)]
    congr 2
    simp only [List.map_cons, List.sum_cons]
    ring

/-- C4.  When every case's run succeeds, `evaluate` returns
`1 / (1 + error)` where `error` is the sum over the cases of
`|result - expected|`.  The non-numeric short-circuit of the source is dead
code in the model because `run` produces a rational whenever it returns. -/
theorem test_c4_evaluate (p : Program) (cases : List Case) (f : Case → ℚ)
    (hruns : ∀ c ∈ cases, run p c.inputs = .ok (f c)) :
    evaluate p cases = .ok (1 / (1 + ((cases.map fun c => |f c - c.expected|).sum))) := by
  unfold evaluate
  rw [evaluateLoop_spec p cases f hruns 0]
  norm_num

theorem test_c4_witness :
    evaluate ⟨[returnOutBlock], []⟩ [⟨[], 1⟩, ⟨[], 3⟩] = .ok ((1 / 5 : ℚ)) := by
  have h := test_c4_evaluate ⟨[returnOutBlock], []⟩ [⟨[], 1⟩, ⟨[], 3⟩] (fun _ => 0)
    (by
      intro c hc
      have hrun : run ⟨[returnOutBlock], []⟩ [] = .ok 0 := by
        simp [run, runBlocks, executeBlock, resolveInput, isValidBlock, isValidValue,
          seedVars, variablesList, blockDefs, defaultFor, returnOutBlock, List.lookup]
      simp only [List.mem_cons, List.not_mem_nil, or_false] at hc
      rcases hc with rfl | rfl <;> exact hrun)
  rw [h]
  norm_num

/-- `evaluate` is the `1/(1+·)` image of the accumulated total error. -/
theorem evaluate_eq_totalError (p : Program) (cases : List Case) :
    evaluate p cases = (totalError p cases).map (fun e => 1 / (1 + e)) := by
  unfold evaluate totalError
  suffices h : ∀ acc : ℚ, evaluateLoop p cases acc =
      (cases.foldlM (fun (a : ℚ) (c : Case) => do
        let r ← run p c.inputs
        pure (a + |r - c.expected|)) acc).map (fun e => 1 / (1 + e)) by
    exact h 0
  induction cases with
  | nil => intro acc; simp [evaluateLoop, Except.map, pure, Except.pure]
  | cons c rest ih =>
    intro acc
    simp only [evaluateLoop, List.foldlM_cons]
    cases hr : run p c.inputs with
    | error e => simp [hr, Except.map]
    | ok r =>
      simp only [hr, ok_bind, pure, Except.pure]
      exact ih (acc + |r - c.expected|)

/-- The accumulated total error is at least its starting accumulator. -/
theorem totalError_nonneg (p : Program) (cases : List Case) (e : ℚ)
    (h : totalError p cases = .ok e) : 0 ≤ e := by
  unfold totalError at h
  suffices hgen : ∀ (acc : ℚ), 0 ≤ acc →
      (cases.foldlM (fun (a : ℚ) (c : Case) => do
        let r ← run p c.inputs
        pure (a + |r - c.expected|)) acc) = .ok e → 0 ≤ e by
    exact hgen 0 le_rfl h
  clear h
  induction cases with
  | nil =>
    intro acc hacc h
    simp only [List.foldlM_nil, pure, Except.pure, Except.ok.injEq] at h
    cc
  | cons c rest ih =>
    intro acc hacc h
    simp only [List.foldlM_cons] at h
    cases hr : run p c.inputs with
    | error e2 => rw [hr] at h; simp at h
    | ok r =>
      rw [hr] at h
      simp only [ok_bind, pure, Except.pure] at h
      exact ih (acc + |r - c.expected|) (by positivity) h

/-- C5.  Fitness values are positive and at most `1`, and fitness is
strictly monotonically decreasing in the total absolute error. -/
theorem test_c5_fitness (p1 p2 : Program) (cases : List Case) (e1 e2 f1 f2 : ℚ)
    (he1 : totalError p1 cases = .ok e1) (he2 : totalError p2 cases = .ok e2)
    (hf1 : evaluate p1 cases = .ok f1) (hf2 : evaluate p2 cases = .ok f2) :
    (0 < f1 ∧ f1 ≤ 1) ∧ (e1 < e2 → f2 < f1) := by
  rw [evaluate_eq_totalError, he1, Except.map] at hf1
  rw [evaluate_eq_totalError, he2, Except.map] at hf2
  simp only [Except.ok.injEq] at hf1 hf2
  subst hf1
  subst hf2
  have h1 := totalError_nonneg p1 cases e1 he1
  have h2 := totalError_nonneg p2 cases e2 he2
  have hpos1 : (0 : ℚ) < 1 + e1 := by linarith
  have hpos2 : (0 : ℚ) < 1 + e2 := by linarith
  refine ⟨⟨by positivity, ?_⟩, ?_⟩
  · rw [div_le_one hpos1]
    linarith
  · intro hlt
    have : 1 + e1 < 1 + e2 := by linarith
    exact one_div_lt_one_div_of_lt hpos1 this



theorem test_c5_witness :
    ((0 : ℚ) < 1 ∧ (1 : ℚ) ≤ 1) ∧ ((0 : ℚ) < 5 → (1 / 6 : ℚ) < 1) := by
  have hrun1 : run ⟨[returnOutBlock], []⟩ [] = .ok 0 := by
    simp [run, runBlocks, executeBlock, resolveInput, isValidBlock, isValidValue,
      seedVars, variablesList, blockDefs, defaultFor, returnOutBlock, List.lookup]
  have hrun2 : run ⟨[Block.mk "set" [] (some "out") (some (.num 5)) none [] [],
      returnOutBlock], []⟩ [] = .ok 5 := by
    simp [run, runBlocks, executeBlock, resolveInput, resolveInputOpt, isValidBlock,
      isValidValue, isValidValueOpt, isValidProgramVariableName, seedVars, variablesList,
      blockDefs, defaultFor, returnOutBlock, List.lookup, trimIsEmpty, startsWithChar]
  exact test_c5_fitness ⟨[returnOutBlock], []⟩
    ⟨[Block.mk "set" [] (some "out") (some (.num 5)) none [] [], returnOutBlock], []⟩
    [⟨[], 0⟩] 0 5 1 (1 / 6)
    (by simp [totalError, hrun1])
    (by simp [totalError, hrun2])
    (by simp [evaluate, evaluateLoop, hrun1])
    (by simp [evaluate, evaluateLoop, hrun2]; norm_num)

theorem test_c6_witness :
    ∃ c, crossover ⟨[Block.mk "set" [] (some "out") (some (.num 5)) none [] [],
        returnOutBlock], []⟩
      ⟨[Block.mk "set" [] (some "out") (some (.num 5)) none [] [], returnOutBlock], []⟩
      1 0 (.num 0) = .ok c ∧
      (c.blocks.filter fun b => b.blockName = "return").length = 1 ∧
      c.blocks.getLast? = some returnOutBlock ∧
      (c.blocks.filter fun b => b.blockName ≠ "return").length ≤ MAX_BLOCKS ∧
      ValidProgram c := by
  have hvalid : ∀ b ∈ [Block.mk "set" [] (some "out") (some (Value.num 5)) none [] [],
      returnOutBlock], isValidBlock b ([] : List String) = .ok true := by
    intro b hb
    simp only [List.mem_cons, List.not_mem_nil, or_false] at hb
    rcases hb with rfl | rfl
    · simp [isValidBlock, isValidValueOpt, isValidValue, isValidProgramVariableName,
        trimIsEmpty, startsWithChar, variablesList]
    · exact returnOutBlock_valid []
  exact test_c6_crossover
    ⟨[Block.mk "set" [] (some "out") (some (.num 5)) none [] [], returnOutBlock], []⟩
    ⟨[Block.mk "set" [] (some "out") (some (.num 5)) none [] [], returnOutBlock], []⟩
    1 0 (.num 0)
    ⟨by simp, hvalid, ⟨returnOutBlock, by simp, rfl⟩⟩
    ⟨by simp, hvalid, ⟨returnOutBlock, by simp, rfl⟩⟩
    rfl

theorem test_c7_witness :
    (∃ b ∈ (Program.mk (fallbackBlocks []) []).blocks, b.blockName = "return") ∧
    (∀ b ∈ (Program.mk (fallbackBlocks []) []).blocks, isValidBlock b [] = .ok true) ∧
    ((∀ b ∈ ([] : List Block), b.blockName ≠ "return") →
      (Program.mk (fallbackBlocks []) []).blocks.getLast? = some returnOutBlock) ∧
    (([] : List Block) = [] → (Program.mk (fallbackBlocks []) []).blocks = fallbackBlocks []) :=
  test_c7_amended [] [] (Program.mk (fallbackBlocks []) [])
    (progenyProgram_nil [])



/-- Inversion for a successful `Except.map`. -/
theorem map_eq_ok {α β : Type} {x : Except String α} {f : α → β} {y : β} :
    x.map f = .ok y ↔ ∃ v, x = .ok v ∧ f v = y := by
  cases x <;> simp [Except.map]

/-- Every derivable big-step judgement agrees with the functional
interpreter: the relation is sound, hence (as the function is
deterministic by construction) the relation itself is deterministic. -/
theorem evalRel_sound : ∀ {i : EvalIn} {o : EvalOut}, EvalRel i o → evalFn i = .ok o := by
  intro i o h
  induction h with
  | numOk q rti s ivs =>
    simp [evalFn, resolveInput, Except.map]
  | numDefault q rti s t ivs ht =>
    simp [evalFn, resolveInput, ht, Except.map]
  | boolOk b rti s ivs =>
    simp [evalFn, resolveInput, Except.map]
  | boolDefault b rti s t ivs ht =>
    simp [evalFn, resolveInput, ht, Except.map]
  | strVariable st rti s ivs =>
    simp [evalFn, resolveInput, Except.map]
  | strUndefined st rti s t ivs ht htn hl =>
    rcases htn with rfl | rfl <;> simp [evalFn, resolveInput, hl, Except.map]
  | strMatch st rti s t ivs v ht htn hl hm =>
    rcases htn with rfl | rfl <;> rcases hm with ⟨he, hv⟩ | ⟨he, hv⟩
    · cases v <;> simp_all [evalFn, resolveInput, JsVal.isNum, JsVal.isBool, Except.map]
    · exact absurd he (by simp)
    · exact absurd he (by simp)
    · cases v <;> simp_all [evalFn, resolveInput, JsVal.isNum, JsVal.isBool, Except.map]
  | strMismatch st rti s t ivs v ht htn hl hm =>
    push_neg at hm
    rcases htn with rfl | rfl <;>
      (cases v <;> simp_all [evalFn, resolveInput, JsVal.isNum, JsVal.isBool,
        Except.map, defaultFor])
  | strOperator st rti s ivs ht1 ht2 =>
    push_neg at ht2
    simp [evalFn, resolveInput, ht1, ht2.1, ht2.2, Except.map]
  | strOther st rti s t ivs ht1 ht2 ht3 =>
    push_neg at ht2
    simp [evalFn, resolveInput, ht1, ht2.1, ht2.2, ht3, Except.map]
  | blkNumber b rti s ivs r s' hv hbd hx ih =>
    obtain ⟨⟨r0, s0⟩, hexec, heq⟩ := map_eq_ok.mp ih
    cases heq
    simp only [evalFn, resolveInput, hv, ok_bind, if_true, hbd]
    simp only [hexec, ok_bind]
    rcases r0 with - | v
    · simp [Except.map, execResolveResult]
    · cases v <;> simp [Except.map, execResolveResult]
  | blkBoolean b rti s ivs r s' hv hnb hbd hx ih =>
    obtain ⟨⟨r0, s0⟩, hexec, heq⟩ := map_eq_ok.mp ih
    cases heq
    simp only [evalFn, resolveInput, hv, ok_bind, if_true, hbd]
    simp only [hexec, ok_bind]
    rcases r0 with - | v
    · simp [Except.map, execResolveResult]
    · cases v <;> simp [Except.map, execResolveResult]
  | blkGetNumber b rti s ivs hv hnb hg =>
    simp only [evalFn, resolveInput, hv, ok_bind, hg, blockDefs, Option.none_bind,
      getNumResult, reduceCtorEq, String.reduceEq, decide_False, decide_True, Bool.false_and,
      Bool.and_false, Bool.true_and, Bool.and_true, Bool.false_eq_true, if_false,
      if_true, and_true, true_and, false_and, and_false]
    split
    · split
      · split <;> simp [Except.map]
      · simp [Except.map]
    · simp [Except.map]
  | blkGetBoolean b rti s ivs hv hnb hg =>
    simp only [evalFn, resolveInput, hv, ok_bind, hg, blockDefs, Option.none_bind,
      getBoolResult, reduceCtorEq, String.reduceEq, decide_False, decide_True, Bool.false_and,
      Bool.and_false, Bool.true_and, Bool.and_true, Bool.false_eq_true, if_false,
      if_true, and_true, true_and, false_and, and_false]
    split
    · split
      · split <;> simp [Except.map]
      · simp [Except.map]
    · simp [Except.map]
  | blkFallthrough b rti s t ivs hv h1 h2 h3 h4 =>
    simp only [evalFn, resolveInput, hv, ok_bind, if_true]
    rw [if_neg (by simpa using h1), if_neg (by simpa using h2),
      if_neg (by simpa using h3), if_neg (by simpa using h4)]
    simp [Except.map]
  | blkInvalid b rti s t ivs hv =>
    simp [evalFn, resolveInput, hv, Except.map]
  | optNone rti s t ivs =>
    simp [evalFn, resolveInputOpt, Except.map]
  | optSome v rti s t ivs x s' hx ih =>
    obtain ⟨⟨x0, s0⟩, hres, heq⟩ := map_eq_ok.mp ih
    cases heq
    simp [evalFn, resolveInputOpt, hres, Except.map]
  | listNil sig rti s ivs =>
    simp [evalFn, resolveInputsList, Except.map]
  | listCons v rest sig rti s ivs r s' rs s'' h1 h2 ih1 ih2 =>
    obtain ⟨⟨r0, s0⟩, hres, heq⟩ := map_eq_ok.mp ih1
    cases heq
    obtain ⟨⟨rs0, s1⟩, hlist, heq2⟩ := map_eq_ok.mp ih2
    cases heq2
    simp [evalFn, resolveInputsList, hres, hlist, Except.map]
  | execInvalid b rti s ivs hv =>
    obtain ⟨name, inputs, varN, val, cond, acts, els⟩ := b
    simp only [evalFn]
    unfold executeBlock
    rw [hv]
    simp [Except.map]
  | execSetStore b rti s ivs v resolved s' hv hn hvar hr htyped ihr =>
    obtain ⟨⟨x0, s0⟩, hres, heq⟩ := map_eq_ok.mp ihr
    cases heq
    try dsimp only at htyped hres
    obtain ⟨name, inputs, varN, val, cond, acts, els⟩ := b
    simp only [Block.blockName] at hn
    subst hn
    simp only [Block.varName] at hvar
    subst hvar
    simp only [Block.value] at hres
    simp only [evalFn]
    unfold executeBlock
    rw [hv]
    simp only [ok_bind, Bool.not_true, Bool.false_eq_true, if_false, if_true]
    rw [hres]
    simp only [ok_bind]
    rcases htyped with hty | hty <;> cases x0 <;>
      simp_all [JsVal.isNum, JsVal.isBool, Except.map]
  | execSetSkip b rti s ivs v st0 s' hv hn hvar hr ihr =>
    obtain ⟨⟨x0, s0⟩, hres, heq⟩ := map_eq_ok.mp ihr
    cases heq
    try dsimp only at hres
    obtain ⟨name, inputs, varN, val, cond, acts, els⟩ := b
    simp only [Block.blockName] at hn
    subst hn
    simp only [Block.varName] at hvar
    subst hvar
    simp only [Block.value] at hres
    simp only [evalFn]
    unfold executeBlock
    rw [hv]
    simp only [ok_bind, Bool.not_true, Bool.false_eq_true, if_false, if_true]
    rw [hres]
    simp [Except.map]
  | execSetNoVar b rti s ivs hv hn hvar =>
    obtain ⟨name, inputs, varN, val, cond, acts, els⟩ := b
    simp only [Block.blockName] at hn
    subst hn
    simp only [Block.varName] at hvar
    subst hvar
    simp only [evalFn]
    unfold executeBlock
    rw [hv]
    simp [Except.map]
  | execReturnNum b rti s ivs inputVal rest q s' hv hn hns hi hr ihr =>
    obtain ⟨⟨x0, s0⟩, hres, heq⟩ := map_eq_ok.mp ihr
    cases heq
    try dsimp only at hres
    obtain ⟨name, inputs, varN, val, cond, acts, els⟩ := b
    simp only [Block.blockName] at hn
    subst hn
    simp only [Block.inputs] at hi
    subst hi
    simp only [evalFn]
    unfold executeBlock
    rw [hv]
    simp only [ok_bind, Bool.not_true, Bool.false_eq_true, if_false]
    norm_num
    rw [hres]
    simp [Except.map]
  | execReturnOther b rti s ivs inputVal rest r s' hv hn hns hi hr hnum ihr =>
    obtain ⟨⟨x0, s0⟩, hres, heq⟩ := map_eq_ok.mp ihr
    cases heq
    try dsimp only at hres hnum
    obtain ⟨name, inputs, varN, val, cond, acts, els⟩ := b
    simp only [Block.blockName] at hn
    subst hn
    simp only [Block.inputs] at hi
    subst hi
    simp only [evalFn]
    unfold executeBlock
    rw [hv]
    simp only [ok_bind, Bool.not_true, Bool.false_eq_true, if_false]
    norm_num
    rw [hres]
    cases x0 <;> simp_all [JsVal.isNum, Except.map]
  | execReturnEmpty b rti s ivs hv hn hns hi =>
    obtain ⟨name, inputs, varN, val, cond, acts, els⟩ := b
    simp only [Block.blockName] at hn
    subst hn
    simp only [Block.inputs] at hi
    subst hi
    simp only [evalFn]
    unfold executeBlock
    rw [hv]
    simp [Except.map]
  | execIfTrue b rti s ivs c s' s'' hv hn hns hnr hc htrue ha ihc iha =>
    obtain ⟨⟨c0, s0⟩, hres, heq⟩ := map_eq_ok.mp ihc
    cases heq
    obtain ⟨sa, hacts, heqa⟩ := map_eq_ok.mp iha
    cases heqa
    try dsimp only at hres htrue hacts
    obtain ⟨name, inputs, varN, val, cond, acts, els⟩ := b
    simp only [Block.blockName] at hn
    subst hn
    simp only [Block.condition] at hres
    simp only [Block.actions] at hacts
    simp only [evalFn]
    unfold executeBlock
    rw [hv]
    simp only [ok_bind, Bool.not_true, Bool.false_eq_true, if_false]
    norm_num
    rw [hres]
    simp only [ok_bind, htrue, if_true]
    rw [hacts]
    simp [Except.map]
  | execIfFalse b rti s ivs c s' hv hn hns hnr hc hfalse ihc =>
    obtain ⟨⟨c0, s0⟩, hres, heq⟩ := map_eq_ok.mp ihc
    cases heq
    try dsimp only at hres hfalse
    obtain ⟨name, inputs, varN, val, cond, acts, els⟩ := b
    simp only [Block.blockName] at hn
    subst hn
    simp only [Block.condition] at hres
    simp only [evalFn]
    unfold executeBlock
    rw [hv]
    simp only [ok_bind, Bool.not_true, Bool.false_eq_true, if_false]
    norm_num
    rw [hres]
    simp [hfalse, Except.map]
  | execIfElseTrue b rti s ivs c s' s'' hv hn hns hnr hni hc htrue ha ihc iha =>
    obtain ⟨⟨c0, s0⟩, hres, heq⟩ := map_eq_ok.mp ihc
    cases heq
    obtain ⟨sa, hacts, heqa⟩ := map_eq_ok.mp iha
    cases heqa
    try dsimp only at hres htrue hacts
    obtain ⟨name, inputs, varN, val, cond, acts, els⟩ := b
    simp only [Block.blockName] at hn
    subst hn
    simp only [Block.condition] at hres
    simp only [Block.actions] at hacts
    simp only [evalFn]
    unfold executeBlock
    rw [hv]
    simp only [ok_bind, Bool.not_true, Bool.false_eq_true, if_false]
    norm_num
    rw [hres]
    simp only [ok_bind, htrue, if_true]
    rw [hacts]
    simp [Except.map]
  | execIfElseFalse b rti s ivs c s' s'' hv hn hns hnr hni hc hfalse ha ihc iha =>
    obtain ⟨⟨c0, s0⟩, hres, heq⟩ := map_eq_ok.mp ihc
    cases heq
    obtain ⟨sa, hacts, heqa⟩ := map_eq_ok.mp iha
    cases heqa
    try dsimp only at hres hfalse hacts
    obtain ⟨name, inputs, varN, val, cond, acts, els⟩ := b
    simp only [Block.blockName] at hn
    subst hn
    simp only [Block.condition] at hres
    simp only [Block.elseActions] at hacts
    simp only [evalFn]
    unfold executeBlock
    rw [hv]
    simp only [ok_bind, Bool.not_true, Bool.false_eq_true, if_false]
    norm_num
    rw [hres]
    simp only [ok_bind, hfalse, Bool.false_eq_true, if_false]
    rw [hacts]
    simp [Except.map]
  | execGenericNoDef b rti s ivs hv hns hnr hni hne hbd =>
    obtain ⟨name, inputs, varN, val, cond, acts, els⟩ := b
    simp only [Block.blockName] at hns hnr hni hne hbd
    simp only [evalFn]
    unfold executeBlock
    rw [hv]
    simp [hns, hnr, hni, hne, hbd, Except.map]
  | execListNil rti s ivs =>
    simp [evalFn, executeActionList, Except.map]
  | execListCons a rest rti s ivs r s' s'' h1 h2 ih1 ih2 =>
    obtain ⟨⟨r0, s0⟩, hexec, heq⟩ := map_eq_ok.mp ih1
    cases heq
    obtain ⟨s1, hrest, heq2⟩ := map_eq_ok.mp ih2
    cases heq2
    simp [evalFn, executeActionList, hexec, hrest, Except.map]
  | runListNil rti s ivs =>
    simp [evalFn, runBlocks, Except.map]
  | runListConsValid b rest rti s ivs r s' s'' hv h1 h2 ih1 ih2 =>
    obtain ⟨⟨r0, s0⟩, hexec, heq⟩ := map_eq_ok.mp ih1
    cases heq
    obtain ⟨s1, hrest, heq2⟩ := map_eq_ok.mp ih2
    cases heq2
    simp [evalFn, runBlocks, hv, hexec, hrest, Except.map, pure, Except.pure]
  | runListConsInvalid b rest rti s ivs s'' hv h2 ih2 =>
    obtain ⟨s1, hrest, heq2⟩ := map_eq_ok.mp ih2
    cases heq2
    simp [evalFn, runBlocks, hv, hrest, Except.map, pure, Except.pure]

/-- C8.  The interpreter is deterministic: any two big-step executions of
the same program on the same runtime inputs produce the same output, and
that output is exactly the value the functional `run` returns — there is no
hidden mutable state between calls. -/
theorem test_c8_deterministic (p : Program) (i : List (String × JsVal)) (o1 o2 : ℚ)
    (h1 : RunRel p i o1) (h2 : RunRel p i o2) :
    o1 = o2 ∧ run p i = .ok o1 := by
  obtain ⟨s1, hr1, ho1⟩ := h1
  obtain ⟨s2, hr2, ho2⟩ := h2
  have e1 := evalRel_sound hr1
  have e2 := evalRel_sound hr2
  simp only [evalFn] at e1 e2
  obtain ⟨sa, hra, heqa⟩ := map_eq_ok.mp e1
  cases heqa
  obtain ⟨sb, hrb, heqb⟩ := map_eq_ok.mp e2
  cases heqb
  rw [hra] at hrb
  cases hrb
  subst ho1
  subst ho2
  refine ⟨rfl, ?_⟩
  unfold run
  dsimp only
  rw [hra]
  rfl

theorem test_c8_witness :
    (0 : ℚ) = 0 ∧
    run { blocks := [returnOutBlock], inputVariables := [] } [] = .ok (0 : ℚ) := by
  have hv : isValidBlock returnOutBlock [] = .ok true := returnOutBlock_valid []
  have d1 : EvalRel (.resolve (.str "out") [] seedState0 "number" [])
      (.val (.num 0) seedState0) :=
    .strMatch "out" [] seedState0 "number" [] (.num 0) (by simp) (Or.inl rfl) rfl
      (Or.inl ⟨rfl, rfl⟩)
  have d2 : EvalRel (.exec returnOutBlock [] seedState0 [])
      (.res none { seedState0 with output := 0 }) :=
    .execReturnNum returnOutBlock [] seedState0 [] (.str "out") [] 0 seedState0 hv
      rfl (by simp [Block.blockName, returnOutBlock]) rfl d1
  have d3 : EvalRel (.runList [returnOutBlock] [] seedState0 [])
      (.st { seedState0 with output := 0 }) :=
    .runListConsValid returnOutBlock [] [] seedState0 [] none
      { seedState0 with output := 0 } { seedState0 with output := 0 } hv d2
      (.runListNil [] { seedState0 with output := 0 } [])
  have hrel : RunRel { blocks := [returnOutBlock], inputVariables := [] } [] 0 :=
    ⟨{ seedState0 with output := 0 }, d3, rfl⟩
  exact test_c8_deterministic { blocks := [returnOutBlock], inputVariables := [] }
    [] 0 0 hrel hrel

/-- C9.  Crossover never modifies its parents: alongside the child, the
trace returns both parents structurally unchanged, and the deep copy (the
source's JSON round-trip) used to build the child is the identity on block
lists, so the child is built from copies, not references into the parents. -/
theorem test_c9_frame (p1 p2 : Program) (cp1 cp2 : Nat) (gv : Value) :
    (crossoverTrace p1 p2 cp1 cp2 gv).2.1 = p1 ∧
    (crossoverTrace p1 p2 cp1 cp2 gv).2.2 = p2 ∧
    (∀ l : List Block, deepCopyBlockList l = l) :=
  ⟨rfl, rfl, deepCopyBlockList_eq⟩

theorem test_c2_counterexample :
    isValidBlock ret7Block [] = .ok true ∧
    run ⟨[ret7Block], []⟩ [] = .ok 7 ∧
    runBlocks [ret7Block] [] ⟨seedVars [] [], 0⟩ [] =
      .ok ⟨[("out", .num 0), ("v0", .num 0), ("v1", .num 0), ("v2", .num 0)], 7⟩ ∧
    List.lookup "out"
        [(("out" : String), JsVal.num 0), ("v0", .num 0), ("v1", .num 0),
          ("v2", .num 0)] = some (.num 0) := by
  refine ⟨?_, ?_, ?_, ?_⟩ <;>
    simp [run, runBlocks, executeBlock, resolveInput, isValidBlock, isValidValue,
      seedVars, blockDefs, List.lookup, ret7Block]

theorem test_c7_counterexample :
    progenyProgram [returnOutBlock, setOut5Block] [] =
      .ok ⟨[returnOutBlock, setOut5Block], []⟩ ∧
    setOut5Block.blockName ≠ "return" := by
  refine ⟨progenyProgram_of_valid _ _ (by simp) ?_
    ⟨returnOutBlock, by simp, rfl⟩, by simp [Block.blockName, setOut5Block]⟩
  intro b hb
  simp only [List.mem_cons, List.not_mem_nil, or_false] at hb
  rcases hb with rfl | rfl
  · exact returnOutBlock_valid []
  · simp [isValidBlock, isValidValueOpt, isValidValue, isValidProgramVariableName,
      variablesList, trimIsEmpty, dynamicVarPattern, startsWithChar, blockDefs,
      setOut5Block]

/-- C10.  The constructor on an empty block list and an empty
input-variable list builds the fallback `[set out constants[0]; return out]`
with `constants[0] = -10`, and running that program returns `-10` (not `0`)
on any runtime inputs. -/
theorem test_c10_fallback (rti : List (String × JsVal)) :
    progenyProgram [] [] = .ok ⟨[setOutNeg10Block, returnOutBlock], []⟩ ∧
    constants.headI = -10 ∧
    run ⟨[setOutNeg10Block, returnOutBlock], []⟩ rti = .ok (-10) := by
  refine ⟨?_, rfl, ?_⟩
  · rw [progenyProgram_nil]
    rfl
  · simp [run, runBlocks, executeBlock, resolveInput, resolveInputOpt, isValidBlock,
      isValidValue, isValidValueOpt, isValidProgramVariableName, seedVars,
      variablesList, blockDefs, defaultFor, returnOutBlock, List.lookup,
      trimIsEmpty, startsWithChar, setOutNeg10Block]

end Progeny
